import Mathlib

/-!
Verification development for the facebook-autopost skill (src/index.js).

The queue/scheduling/delivery core of src/index.js is shallowly embedded
below.  JavaScript values are rendered as follows: machine timestamps
(Date.now(), milliseconds) are Nat; JS strings are String; nullable or
possibly-absent string fields are Option String, with the JS truthiness
convention (undefined, null and the empty string are falsy) made explicit
by the helpers truthyOpt and orDefault; the file system visible through
the fs module is a list of existing paths; the network (Telegram and the
Facebook Graph API) is an oracle recorded in an Attempt value, since both
platforms are external black boxes; the sha256 digest from the node
crypto library is likewise an external primitive and is passed in as a
function parameter wherever the code computes it.  Item ids are stored by
the code as the decimal string of the millisecond clock and are only ever
compared for equality, so they are modelled by the underlying Nat.
Exceptions are rendered as Except values.
-/

namespace FBAutoPost

/-- JS String.prototype.includes over char lists: pat occurs somewhere in l. -/
def listIncludes (pat : List Char) : List Char → Bool
  | [] => pat.isEmpty
  | c :: rest => pat.isPrefixOf (c :: rest) || listIncludes pat rest

/-- JS s.includes(pat): substring containment. -/
def strIncludes (s pat : String) : Bool :=
  listIncludes pat.data s.data

/-- JS lexicographic comparison a <= b on char lists. -/
def charListLe : List Char → List Char → Bool
  | [], _ => true
  | _ :: _, [] => false
  | a :: as, b :: bs => if a < b then true else if b < a then false else charListLe as bs

/-- JS string comparison a <= b. -/
def strLe (a b : String) : Bool :=
  charListLe a.data b.data

/-- JS `opt || null` : an empty string collapses to null. -/
def truthyOpt : Option String → Option String
  | some "" => none
  | o => o

/-- JS `opt || d` : a missing or empty string is replaced by the default. -/
def orDefault (o : Option String) (d : String) : String :=
  match o with
  | some s => if s = "" then d else s
  | none => d

/-- A queued unit of content (the objects stored in queue.json).
The id field holds Date.now() (the code stores its decimal string and
only compares ids for equality).  The error field mirrors item.error. -/
structure QueueItem where
  id : Nat
  source : Option String
  text : String
  mediaUrl : Option String
  mediaType : String
  telegramFileId : Option String
  contentHash : String
  addedAt : String
  scheduledFor : Option String
  status : String
  postedAt : Option String := none
  facebookPostId : Option String := none
  error : Option String := none
deriving DecidableEq

/-- The persisted queue document (queue.json). -/
structure Queue where
  pending : List QueueItem
  posted : List QueueItem
  lastPostTime : Option Nat
  postedHashes : List String
deriving DecidableEq

/-- loadQueue default when no persisted state exists. -/
def emptyQueue : Queue :=
  { pending := [], posted := [], lastPostTime := none, postedHashes := [] }

/-- config.settings.facebook. -/
structure FacebookSettings where
  page_id : String
  access_token : String
  api_version : String
deriving DecidableEq

/-- config.settings.telegram. -/
structure TelegramSettings where
  bot_token : Option String
deriving DecidableEq

/-- config.settings.schedule. -/
structure ScheduleSettings where
  post_times : List String
  timezone : String
  posts_per_day : Option Nat
deriving DecidableEq

/-- config.settings. -/
structure Settings where
  facebook : FacebookSettings
  telegram : TelegramSettings
  dry_run : Bool
  schedule : ScheduleSettings
deriving DecidableEq

/-- The loaded configuration. -/
structure Config where
  settings : Settings
deriving DecidableEq

/-- Result shape shared by validateInput and validateConfig. -/
structure Validation where
  valid : Bool
  errors : List String
deriving DecidableEq

/-- Ingestion payload handed to addToQueue (content). -/
structure Content where
  source : Option String
  text : String
  mediaUrl : Option String
  mediaType : Option String
  telegramFileId : Option String
deriving DecidableEq

/-- validateInput (src/index.js lines 136-154).  A missing or non-string
text field is rendered as the empty string (JS falsy). -/
def validMediaTypes : List String := ["text", "image", "video"]

def validateInput (item : Content) : Validation :=
  let textErrors :=
    if item.text = "" then ["Text content is required"]
    else if item.text.length > 2200 then ["Text exceeds Facebook limit of 2200 characters"]
    else []
  let mediaErrors :=
    match item.mediaType with
    | none => []
    | some m =>
      if m = "" then []
      else if validMediaTypes.contains m then []
      else ["Invalid media type. Must be one of: text, image, video"]
  let errors := textErrors ++ mediaErrors
  { valid := errors.isEmpty, errors := errors }

/-- generateContentHash (lines 122-125).  The sha256 hex digest from the
node crypto library is the external parameter digest; the code hashes
text ++ ":" ++ mediaType, where a missing mediaType defaults to "text"
(JS default parameter: applied for undefined only, not for ""), and
keeps the first 16 hex characters. -/
def generateContentHash (digest : String → String) (text : String) (mediaType : Option String) : String :=
  (digest (text ++ ":" ++ mediaType.getD "text")).take 16

/-- isDuplicateContent (lines 128-133): membership in postedHashes only. -/
def isDuplicateContent (queue : Queue) (hash : String) : Bool :=
  queue.postedHashes.contains hash

/-- validateConfig (lines 157-173). -/
def validateConfig (config : Config) : Validation :=
  let fb := config.settings.facebook
  let pageErrors :=
    if fb.page_id = "" || strIncludes fb.page_id "YOUR_" then ["Facebook Page ID is required"] else []
  let tokenErrors :=
    if fb.access_token = "" || strIncludes fb.access_token "YOUR_" then ["Facebook Access Token is required"] else []
  let errors := pageErrors ++ tokenErrors
  { valid := errors.isEmpty, errors := errors }

/-- rateLimiter.minInterval (line 32): 60 seconds in milliseconds. -/
def minInterval : Nat := 60000

/-- Result shape of checkRateLimit. -/
structure RateCheck where
  allowed : Bool
  waitTime : Nat
  message : String
deriving DecidableEq

/-- checkRateLimit (lines 176-190), with lastPostTime the rate-limiter
clock and now the Date.now() at the call.  JS computes now - last as a
possibly negative number; with Nat truncated subtraction the branch taken
is the same, since a negative difference and a zero difference are both
below minInterval. -/
def checkRateLimit (lastPostTime now : Nat) : RateCheck :=
  let timeSinceLastPost := now - lastPostTime
  if timeSinceLastPost < minInterval then
    let waitTime := (minInterval - timeSinceLastPost + 999) / 1000
    { allowed := false, waitTime := waitTime,
      message := "Rate limit exceeded. Please wait " ++ Nat.repr waitTime ++ " seconds before next post." }
  else
    { allowed := true, waitTime := 0, message := "" }

/-- JS str.split(":") over a char list. -/
def splitOnColon : List Char → List (List Char)
  | [] => [[]]
  | c :: rest =>
    if c = ':' then [] :: splitOnColon rest
    else
      match splitOnColon rest with
      | [] => [[c]]
      | p :: ps => (c :: p) :: ps

/-- JS Number(str) restricted to its use on slot parts: a string of
decimal digits is its value (an empty string is 0); anything else is
NaN, which the downstream arithmetic treats as no match, rendered 0. -/
def jsNumber (l : List Char) : Nat :=
  if l.all Char.isDigit then l.foldl (fun acc c => acc * 10 + (c.toNat - 48)) 0 else 0

/-- Parsed parts of a "HH:MM" slot string: timeStr.split(":").map(Number). -/
def timeParts (s : String) : List Nat :=
  (splitOnColon s.data).map jsNumber

/-- Minutes since midnight of a slot string: hour * 60 + minute. -/
def slotMinutes (s : String) : Nat :=
  (timeParts s).getD 0 0 * 60 + (timeParts s).getD 1 0

/-- The value getNextScheduleTime encodes in its returned ISO string: a
day (today or tomorrow in the configured timezone) and a time of day. -/
structure ScheduledTime where
  dayOffset : Nat
  hour : Nat
  minute : Nat
deriving DecidableEq

/-- The for loop of getNextScheduleTime (lines 286-293): the first slot
string in list order whose time of day is strictly later than the
current time of day. -/
def findSlot (currentTime : Nat) : List String → Option String
  | [] => none
  | t :: rest => if slotMinutes t > currentTime then some t else findSlot currentTime rest

/-- getNextScheduleTime (lines 279-300), as a function of the configured
slot list and of the current time of day (minutes since midnight,
projected into the configured timezone by the Date locale machinery,
which is external to this model).  With an empty slot list the code
crashes on times[0]; this is rendered as none. -/
def getNextScheduleTime (times : List String) (currentTime : Nat) : Option ScheduledTime :=
  match findSlot currentTime times with
  | some t => some { dayOffset := 0, hour := (timeParts t).getD 0 0, minute := (timeParts t).getD 1 0 }
  | none =>
    match times with
    | [] => none
    | t :: _ => some { dayOffset := 1, hour := (timeParts t).getD 0 0, minute := (timeParts t).getD 1 0 }

/-- The clock context of one scheduling pass: the current time of day in
the configured timezone and the rendered dates of today and tomorrow,
out of which the returned ISO string is assembled. -/
structure TzNow where
  currentTime : Nat
  todayDate : String
  tomorrowDate : String
deriving DecidableEq

/-- Two-digit rendering used inside an ISO timestamp. -/
def pad2 (n : Nat) : String :=
  if n < 10 then "0" ++ Nat.repr n else Nat.repr n

/-- Rendering of the Date produced by getNextScheduleTime as its ISO
string (toISOString). -/
def formatScheduled (tz : TzNow) (st : ScheduledTime) : String :=
  (if st.dayOffset = 0 then tz.todayDate else tz.tomorrowDate) ++
    "T" ++ pad2 st.hour ++ ":" ++ pad2 st.minute ++ ":00.000Z"

/-- The ISO string getNextScheduleTime(config) returns. -/
def getNextScheduleTimeIso (cfg : Config) (tz : TzNow) : Option String :=
  (getNextScheduleTime cfg.settings.schedule.post_times tz.currentTime).map (formatScheduled tz)

/-- config.settings.schedule.posts_per_day || 2 (line 309): JS || also
replaces an explicit 0 by the default. -/
def postsPerDay (cfg : Config) : Nat :=
  match cfg.settings.schedule.posts_per_day with
  | some n => if n = 0 then 2 else n
  | none => 2

/-- The loop of schedulePosts (lines 310-315).  The code takes
unscheduled.slice(0, postsPerDay) and mutates those shared objects in
place; this pure rendering walks pending and rewrites the first fuel
items whose scheduledFor is null, re-evaluating getNextScheduleTime per
item exactly as the loop body does. -/
def assignSlots (cfg : Config) (tz : TzNow) : Nat → List QueueItem → List QueueItem
  | _, [] => []
  | 0, rest => rest
  | n + 1, it :: rest =>
    if it.scheduledFor = none then
      { it with scheduledFor := getNextScheduleTimeIso cfg tz } :: assignSlots cfg tz n rest
    else
      it :: assignSlots cfg tz (n + 1) rest

/-- schedulePosts (lines 303-317) on an explicit store value.  The second
component is the list of store states written by saveQueue during the
call (none when there is nothing to schedule, because of the early
return on line 307). -/
def schedulePosts (cfg : Config) (tz : TzNow) (q : Queue) : Queue × List Queue :=
  let unscheduled := q.pending.filter (fun it => it.scheduledFor = none)
  if unscheduled.isEmpty then (q, [])
  else
    let q' := { q with pending := assignSlots cfg tz (postsPerDay cfg) q.pending }
    (q', [q'])

/-- The three shapes of the value addToQueue returns. -/
inductive AddResult
  | failure (errors : List String)
  | duplicate
  | success (item : QueueItem)
deriving DecidableEq

/-- The item literal built on lines 256-267. -/
def newQueueItem (content : Content) (contentHash : String) (now : Nat) (nowIso : String) : QueueItem :=
  { id := now,
    source := content.source,
    text := content.text,
    mediaUrl := truthyOpt content.mediaUrl,
    mediaType := orDefault content.mediaType "text",
    telegramFileId := truthyOpt content.telegramFileId,
    contentHash := contentHash,
    addedAt := nowIso,
    scheduledFor := none,
    status := "pending" }

/-- addToQueue (lines 241-276) on an explicit store value.  now is
Date.now() at the call and nowIso the ISO clock reading.  Returns the
result value, the final persisted store, and the list of store states
written during the call (the saveQueue on line 270, then whatever the
schedulePosts call on line 273 writes). -/
def addToQueue (digest : String → String) (cfg : Config) (tz : TzNow) (now : Nat)
    (nowIso : String) (content : Content) (store : Queue) :
    AddResult × Queue × List Queue :=
  let validation := validateInput content
  if !validation.valid then
    (.failure validation.errors, store, [])
  else
    let contentHash := generateContentHash digest content.text content.mediaType
    if isDuplicateContent store contentHash then
      (.duplicate, store, [])
    else
      let item := newQueueItem content contentHash now nowIso
      let q1 := { store with pending := store.pending ++ [item] }
      let sp := schedulePosts cfg tz q1
      (.success item, sp.1, q1 :: sp.2)

/-- TEMP_DIR = path.join(__dirname, "temp") (line 26), with the skill
directory modelled as /skill. -/
def TEMP_DIR : String := "/skill/temp"

/-- fs.writeFileSync viewed through the file-path model. -/
def fsWrite (fs : List String) (p : String) : List String :=
  if fs.contains p then fs else fs ++ [p]

/-- cleanupTempFile (lines 229-238): unlink only a truthy path that
exists and that has TEMP_DIR somewhere inside it (filePath.includes). -/
def cleanupTempFile (fs : List String) (filePath : String) : List String :=
  if filePath ≠ "" ∧ fs.contains filePath ∧ strIncludes filePath TEMP_DIR then
    fs.filter (fun q => q ≠ filePath)
  else
    fs

/-- The external events of one delivery attempt: the Date.now() readings
at the rate-limit gate and at updateRateLimit, the Telegram file name
resolved by the metadata call, whether the two-step Telegram download
succeeds, and the platform publish outcome (the API post id, or the
error message of the error-shaped JSON or thrown network failure; for a
video upload this aggregates the three phases). -/
structure Attempt where
  startTime : Nat
  finishTime : Nat
  tgFileName : String
  download : Except String Unit
  net : Except String String

/-- The scratch path downloadTelegramFile writes (line 209): timestamp
prefixed name under TEMP_DIR. -/
def tempLocalPath (a : Attempt) : String :=
  TEMP_DIR ++ "/" ++ Nat.repr a.startTime ++ "_" ++ a.tgFileName

/-- The four publish branches of postToFacebook (lines 409-431). -/
inductive PublishRoute
  | video
  | photoMultipart
  | photoUrl
  | feed
deriving DecidableEq

/-- Branch selection of lines 409-431: video and local image need the
media path to exist on disk; an image with a truthy but non-local media
path is posted by URL; anything else goes to the feed endpoint. -/
def publishRoute (item : QueueItem) (mediaPath : Option String) (fs : List String) : PublishRoute :=
  match mediaPath with
  | some p =>
    if item.mediaType = "video" ∧ fs.contains p then .video
    else if item.mediaType = "image" ∧ fs.contains p then .photoMultipart
    else if item.mediaType = "image" then .photoUrl
    else .feed
  | none => .feed

/-- Everything one postToFacebook call leaves behind: the returned value
or thrown message, the rate-limiter clock after the call, the file
system after the finally block, whether any network request was issued,
and which publish branch ran (none when the attempt ended before the
publish stage). -/
structure DeliveryResult where
  result : Except String String
  lastPostTime : Nat
  fs : List String
  networkCalled : Bool
  route : Option PublishRoute

/-- The try block body from the publish branch on (lines 409-434) plus
the finally block (lines 436-438): run the selected publish request,
throw the error-shaped message or return the result and update the
rate-limiter clock, then unconditionally clean the scratch file up. -/
def runPublish (item : QueueItem) (a : Attempt) (rl : Nat) (fs : List String)
    (mediaPath : Option String) (tempFilePath : Option String) : DeliveryResult :=
  let route := publishRoute item mediaPath fs
  let fin : DeliveryResult :=
    match a.net with
    | .ok fbid => { result := .ok fbid, lastPostTime := a.finishTime, fs := fs, networkCalled := true, route := some route }
    | .error msg => { result := .error msg, lastPostTime := rl, fs := fs, networkCalled := true, route := some route }
  match tempFilePath with
  | some p => { fin with fs := cleanupTempFile fin.fs p }
  | none => fin

/-- postToFacebook (lines 385-439).  rl is the process-local
rateLimiter.lastPostTime and fs the file-path model of the disk.  The
gates run in source order: dry run, config validation, rate limit; only
then is the try block entered, where every branch issues at least one
network request. -/
def postToFacebook (cfg : Config) (item : QueueItem) (a : Attempt) (rl : Nat)
    (fs : List String) : DeliveryResult :=
  if cfg.settings.dry_run then
    { result := .ok ("dry-run-" ++ Nat.repr a.startTime), lastPostTime := rl, fs := fs,
      networkCalled := false, route := none }
  else
    let validation := validateConfig cfg
    if !validation.valid then
      { result := .error ("Config error: " ++ String.intercalate ", " validation.errors),
        lastPostTime := rl, fs := fs, networkCalled := false, route := none }
    else
      let rateLimit := checkRateLimit rl a.startTime
      if !rateLimit.allowed then
        { result := .error rateLimit.message, lastPostTime := rl, fs := fs,
          networkCalled := false, route := none }
      else
        match truthyOpt item.telegramFileId, truthyOpt cfg.settings.telegram.bot_token with
        | some _, some _ =>
          match a.download with
          | .ok _ =>
            let localPath := tempLocalPath a
            let fs1 := fsWrite fs localPath
            runPublish item a rl fs1 (some localPath) (some localPath)
          | .error msg =>
            { result := .error ("Telegram download failed: " ++ msg), lastPostTime := rl,
              fs := fs, networkCalled := true, route := none }
        | _, _ =>
          runPublish item a rl fs (truthyOpt item.mediaUrl) none

/-- The due filter of processScheduledPosts (line 446): a truthy text
containing the #now marker, or a truthy scheduledFor at or before now
(ISO strings compared as JS strings). -/
def isDue (nowIso : String) (it : QueueItem) : Bool :=
  (it.text ≠ "" && strIncludes it.text "#now") ||
    (match it.scheduledFor with
     | some s => s ≠ "" && strLe s nowIso
     | none => false)

/-- postedHashes bookkeeping of the success path (lines 457-461): a
truthy hash not yet recorded is pushed, and the oldest entry is shifted
off when the list exceeds 1000. -/
def appendHash (hashes : List String) (h : String) : List String :=
  if h ≠ "" ∧ ¬ hashes.contains h then
    let pushed := hashes ++ [h]
    if pushed.length > 1000 then pushed.drop 1 else pushed
  else
    hashes

/-- The in-memory state threaded through one processor pass: the queue
fields the loop mutates, the process-local rate-limiter clock and the
file-path model of the disk. -/
structure ProcState where
  pending : List QueueItem
  posted : List QueueItem
  postedHashes : List String
  lastPostTime : Nat
  fs : List String

/-- One iteration of the for loop of processScheduledPosts (lines
448-468): on success the mutated item object moves to posted, pending
drops its id, and its hash is recorded; on a caught failure the pending
entry with its id is marked failed with the error message. -/
def processItem (cfg : Config) (nowIso : String) (a : Attempt) (item : QueueItem)
    (s : ProcState) : ProcState × Except String String :=
  let d := postToFacebook cfg item a s.lastPostTime s.fs
  match d.result with
  | .ok fbid =>
    let item' := { item with postedAt := some nowIso, facebookPostId := some fbid, status := "posted" }
    ({ pending := s.pending.filter (fun p => p.id ≠ item.id),
       posted := s.posted ++ [item'],
       postedHashes := appendHash s.postedHashes item.contentHash,
       lastPostTime := d.lastPostTime,
       fs := d.fs }, .ok fbid)
  | .error msg =>
    ({ s with
       pending := s.pending.map (fun p => if p.id = item.id then { p with status := "failed", error := some msg } else p),
       lastPostTime := d.lastPostTime,
       fs := d.fs }, .error msg)

/-- The for loop over the due snapshot, also collecting the per-item
outcomes in order.  env supplies the external events of the idx-th
attempt. -/
def processItems (cfg : Config) (nowIso : String) (env : Nat → Attempt) :
    Nat → List QueueItem → ProcState → ProcState × List (QueueItem × Except String String)
  | _, [], s => (s, [])
  | idx, it :: rest, s =>
    let step := processItem cfg nowIso (env idx) it s
    let tail := processItems cfg nowIso env (idx + 1) rest step.1
    (tail.1, (it, step.2) :: tail.2)

/-- Everything one processScheduledPosts pass leaves behind. -/
structure ProcessOutcome where
  store : Queue
  writes : List Queue
  lastPostTime : Nat
  fs : List String
  results : List (QueueItem × Except String String)

/-- processScheduledPosts (lines 442-470) on an explicit store value:
select the due snapshot from pending, drive the delivery pipeline per
item, and persist the reconciled queue once at the end (the single
saveQueue on line 469, recorded in writes). -/
def processScheduledPosts (cfg : Config) (nowIso : String) (env : Nat → Attempt)
    (rl : Nat) (fs0 : List String) (store : Queue) : ProcessOutcome :=
  let duePosts := store.pending.filter (isDue nowIso)
  let s0 : ProcState :=
    { pending := store.pending, posted := store.posted, postedHashes := store.postedHashes,
      lastPostTime := rl, fs := fs0 }
  let run := processItems cfg nowIso env 0 duePosts s0
  let q' : Queue :=
    { pending := run.1.pending, posted := run.1.posted,
      lastPostTime := store.lastPostTime, postedHashes := run.1.postedHashes }
  { store := q', writes := [q'], lastPostTime := run.1.lastPostTime, fs := run.1.fs,
    results := run.2 }

/-- The queue states the system can reach from the empty store through
its three mutating operations.  The Nat index bounds every ingestion
timestamp seen so far: successive Date.now() readings at distinct
ingestions are modelled as strictly increasing (the id of a new item is
at least the bound, and the bound then moves past it). -/
inductive Reachable : Nat → Queue → Prop
  | empty : Reachable 0 emptyQueue
  | add (digest : String → String) (cfg : Config) (tz : TzNow) (now : Nat) (nowIso : String)
      (content : Content) {t : Nat} {q : Queue} :
      Reachable t q → t ≤ now →
      Reachable (now + 1) (addToQueue digest cfg tz now nowIso content q).2.1
  | schedule (cfg : Config) (tz : TzNow) {t : Nat} {q : Queue} :
      Reachable t q → Reachable t (schedulePosts cfg tz q).1
  | process (cfg : Config) (nowIso : String) (env : Nat → Attempt) (rl : Nat)
      (fs : List String) {t : Nat} {q : Queue} :
      Reachable t q → Reachable t (processScheduledPosts cfg nowIso env rl fs q).store

/-- The ids of a list of queue items, in order. -/
def idsOf (l : List QueueItem) : List Nat :=
  l.map (fun it => it.id)

/-- The eligibility property the specification words assert of the
cleanup guard: the path lies under the scratch directory, that is, the
scratch directory followed by the path separator is an initial segment
of the path.  Stated from the spec for comparison with the guard the
code actually implements (a substring test). -/
def liesUnderScratchDir (p : String) : Bool :=
  (TEMP_DIR ++ "/").data.isPrefixOf p.data

/-- The single structural invariant of the persisted queue, indexed by a
strict upper bound on every ingestion timestamp seen so far: no pending
item is marked posted, ids are globally distinct across pending and
posted, every id is below the bound, and the hash window respects its
capacity. -/
def QueueInv (t : Nat) (q : Queue) : Prop :=
  (∀ p ∈ q.pending, p.status ≠ "posted") ∧
  (idsOf q.pending ++ idsOf q.posted).Nodup ∧
  (∀ p ∈ q.pending, p.id < t) ∧
  (∀ p ∈ q.posted, p.id < t) ∧
  q.postedHashes.length ≤ 1000

/-- The same invariant on the in-memory state of a processor pass. -/
def StateInv (t : Nat) (s : ProcState) : Prop :=
  (∀ p ∈ s.pending, p.status ≠ "posted") ∧
  (idsOf s.pending ++ idsOf s.posted).Nodup ∧
  (∀ p ∈ s.pending, p.id < t) ∧
  (∀ p ∈ s.posted, p.id < t) ∧
  s.postedHashes.length ≤ 1000

/-- Identity stand-in for the external sha256 hex digest, used to
instantiate the digest parameter on concrete inputs. -/
def dig0 : String → String := fun s => s

/-- A concrete scheduling clock context: 10:00 in the configured zone. -/
def tz0 : TzNow :=
  { currentTime := 600, todayDate := "2024-01-01", tomorrowDate := "2024-01-02" }

/-- A concrete valid configuration with dry run off. -/
def cfgOk : Config :=
  { settings :=
    { facebook := { page_id := "123456", access_token := "token123", api_version := "v18.0" },
      telegram := { bot_token := none },
      dry_run := false,
      schedule := { post_times := ["09:00", "18:00"], timezone := "Asia/Bangkok",
                    posts_per_day := some 2 } } }

/-- The valid configuration with dry run on. -/
def cfgDry : Config := { settings := { cfgOk.settings with dry_run := true } }

/-- A configuration still carrying the placeholder page id. -/
def cfgBad : Config :=
  { settings := { cfgOk.settings with
      facebook := { page_id := "YOUR_PAGE_ID", access_token := "token123",
                    api_version := "v18.0" } } }

/-- The valid configuration with a Telegram bot token. -/
def cfgTg : Config :=
  { settings := { cfgOk.settings with telegram := { bot_token := some "bt123" } } }

/-- A concrete valid ingestion payload. -/
def content0 : Content :=
  { source := some "tg", text := "hello world", mediaUrl := none, mediaType := some "text",
    telegramFileId := none }

/-- An ingestion payload with the text missing. -/
def badContent : Content := { content0 with text := "" }

/-- A first delivery attempt, succeeding at the platform. -/
def aFirst : Attempt :=
  { startTime := 100000, finishTime := 100500, tgFileName := "f.jpg", download := .ok (),
    net := .ok "fb_1" }

/-- A second delivery attempt less than a minute after the first one. -/
def aSecond : Attempt :=
  { startTime := 120000, finishTime := 120500, tgFileName := "f.jpg", download := .ok (),
    net := .ok "fb_2" }

/-- An attempt whose Telegram download succeeds and whose publish fails. -/
def aTg : Attempt :=
  { startTime := 100000, finishTime := 100500, tgFileName := "pic.jpg", download := .ok (),
    net := .error "boom" }

/-- A concrete due queue item. -/
def item6 : QueueItem :=
  { id := 1, source := some "tg", text := "hello", mediaUrl := none, mediaType := "text",
    telegramFileId := none, contentHash := "abc", addedAt := "2023",
    scheduledFor := some "2020-01-01T00:00:00.000Z", status := "pending" }

/-- A due item carrying a Telegram file reference. -/
def itemTg : QueueItem := { item6 with telegramFileId := some "file9", id := 2 }

/-- A queue holding one due pending item. -/
def q6 : Queue := { pending := [item6], posted := [], lastPostTime := none, postedHashes := [] }

/-- A queue holding one unscheduled pending item. -/
def q9 : Queue :=
  { pending := [{ item6 with scheduledFor := none }], posted := [], lastPostTime := none,
    postedHashes := [] }

/-- A constant attempt environment for processor passes. -/
def env6 : Nat → Attempt := fun _ => aFirst

/-- The now reading used in concrete processor passes. -/
def nowIso6 : String := "2024-01-01T00:00:00.000Z"

theorem isPrefixOf_self_append (l r : List Char) : l.isPrefixOf (l ++ r) = true := by
  induction l with
  | nil => simp [List.isPrefixOf]
  | cons c cs ih => simp [List.isPrefixOf, ih]

theorem listIncludes_self_append (pat rest : List Char) :
    listIncludes pat (pat ++ rest) = true := by
  match pat, rest with
  | [], [] => rfl
  | [], c :: r => simp [listIncludes, List.isPrefixOf]
  | c :: p, rest =>
    show listIncludes (c :: p) (c :: (p ++ rest)) = true
    simp [listIncludes, List.isPrefixOf, isPrefixOf_self_append]

theorem strIncludes_tempDir (r : String) :
    strIncludes (TEMP_DIR ++ r) TEMP_DIR = true := by
  have h : (TEMP_DIR ++ r).data = TEMP_DIR.data ++ r.data := by
    simp
  simp only [strIncludes, h]
  exact listIncludes_self_append _ _

theorem assignSlots_idsOf (cfg : Config) (tz : TzNow) :
    ∀ (n : Nat) (l : List QueueItem), idsOf (assignSlots cfg tz n l) = idsOf l := by
  intro n l
  induction l generalizing n with
  | nil => cases n <;> rfl
  | cons it rest ih =>
    cases n with
    | zero => rfl
    | succ m =>
      by_cases h : it.scheduledFor = none
      · have hr := ih m
        simp only [assignSlots, if_pos h, idsOf, List.map_cons] at hr ⊢
        rw [hr]
      · have hr := ih (m + 1)
        simp only [assignSlots, if_neg h, idsOf, List.map_cons] at hr ⊢
        rw [hr]

theorem assignSlots_mem_of (cfg : Config) (tz : TzNow) :
    ∀ (n : Nat) (l : List QueueItem), ∀ p₀ ∈ l, ∃ p ∈ assignSlots cfg tz n l,
      p.id = p₀.id ∧ p.text = p₀.text ∧ p.contentHash = p₀.contentHash ∧ p.status = p₀.status := by
  intro n l
  induction l generalizing n with
  | nil => intro p₀ h; cases h
  | cons it rest ih =>
    intro p₀ hmem
    cases n with
    | zero => exact ⟨p₀, hmem, rfl, rfl, rfl, rfl⟩
    | succ m =>
      rcases List.mem_cons.mp hmem with h1 | h1
      · by_cases h : it.scheduledFor = none
        · refine ⟨{ it with scheduledFor := getNextScheduleTimeIso cfg tz }, ?_, ?_, ?_, ?_, ?_⟩ <;>
            simp [assignSlots, if_pos h, h1]
        · exact ⟨it, by simp [assignSlots, if_neg h], by simp [h1], by simp [h1], by simp [h1], by simp [h1]⟩
      · by_cases h : it.scheduledFor = none
        · obtain ⟨p, hp, hps⟩ := ih m p₀ h1
          exact ⟨p, by simp [assignSlots, if_pos h]; exact Or.inr hp, hps⟩
        · obtain ⟨p, hp, hps⟩ := ih (m + 1) p₀ h1
          exact ⟨p, by simp [assignSlots, if_neg h]; exact Or.inr hp, hps⟩

theorem assignSlots_mem (cfg : Config) (tz : TzNow) :
    ∀ (n : Nat) (l : List QueueItem), ∀ p ∈ assignSlots cfg tz n l, ∃ p₀ ∈ l,
      p.id = p₀.id ∧ p.status = p₀.status := by
  intro n l
  induction l generalizing n with
  | nil => intro p h; cases n <;> cases h
  | cons it rest ih =>
    intro p hmem
    cases n with
    | zero => exact ⟨p, hmem, rfl, rfl⟩
    | succ m =>
      by_cases h : it.scheduledFor = none
      · rw [assignSlots, if_pos h] at hmem
        rcases List.mem_cons.mp hmem with h1 | h1
        · exact ⟨it, List.mem_cons_self _ _, by simp [h1], by simp [h1]⟩
        · obtain ⟨p₀, hp₀, hps⟩ := ih m p h1
          exact ⟨p₀, List.mem_cons_of_mem _ hp₀, hps⟩
      · rw [assignSlots, if_neg h] at hmem
        rcases List.mem_cons.mp hmem with h1 | h1
        · exact ⟨it, List.mem_cons_self _ _, by simp [h1], by simp [h1]⟩
        · obtain ⟨p₀, hp₀, hps⟩ := ih (m + 1) p h1
          exact ⟨p₀, List.mem_cons_of_mem _ hp₀, hps⟩

theorem schedulePosts_frame (cfg : Config) (tz : TzNow) (q : Queue) :
    (schedulePosts cfg tz q).1.posted = q.posted ∧
    (schedulePosts cfg tz q).1.postedHashes = q.postedHashes ∧
    (schedulePosts cfg tz q).1.lastPostTime = q.lastPostTime := by
  by_cases hny : (q.pending.filter (fun it => it.scheduledFor = none)).isEmpty = true <;>
    simp [schedulePosts, hny]

theorem schedulePosts_idsOf (cfg : Config) (tz : TzNow) (q : Queue) :
    idsOf (schedulePosts cfg tz q).1.pending = idsOf q.pending := by
  by_cases hny : (q.pending.filter (fun it => it.scheduledFor = none)).isEmpty = true <;>
    simp [schedulePosts, hny, assignSlots_idsOf]

theorem schedulePosts_pending_mem_of (cfg : Config) (tz : TzNow) (q : Queue) :
    ∀ p₀ ∈ q.pending, ∃ p ∈ (schedulePosts cfg tz q).1.pending,
      p.id = p₀.id ∧ p.text = p₀.text ∧ p.contentHash = p₀.contentHash ∧ p.status = p₀.status := by
  intro p₀ h
  by_cases hny : (q.pending.filter (fun it => it.scheduledFor = none)).isEmpty = true
  · exact ⟨p₀, by simp [schedulePosts, hny, h], rfl, rfl, rfl, rfl⟩
  · obtain ⟨p, hp, hps⟩ := assignSlots_mem_of cfg tz (postsPerDay cfg) q.pending p₀ h
    exact ⟨p, by simp [schedulePosts, hny, hp], hps⟩

theorem schedulePosts_pending_mem (cfg : Config) (tz : TzNow) (q : Queue) :
    ∀ p ∈ (schedulePosts cfg tz q).1.pending, ∃ p₀ ∈ q.pending,
      p.id = p₀.id ∧ p.status = p₀.status := by
  intro p h
  by_cases hny : (q.pending.filter (fun it => it.scheduledFor = none)).isEmpty = true
  · simp [schedulePosts, hny] at h
    exact ⟨p, h, rfl, rfl⟩
  · simp [schedulePosts, hny] at h
    exact assignSlots_mem cfg tz (postsPerDay cfg) q.pending p h

theorem appendHash_length_le (hashes : List String) (h : String)
    (hlen : hashes.length ≤ 1000) : (appendHash hashes h).length ≤ 1000 := by
  simp only [appendHash]
  split
  · split
    · next hgt =>
        simp only [List.length_drop, List.length_append, List.length_singleton] at hgt ⊢
        omega
    · next hle =>
        simp only [gt_iff_lt, not_lt, List.length_append, List.length_singleton] at hle ⊢
        omega
  · exact hlen

theorem checkRateLimit_allowed_iff (last now : Nat) :
    (checkRateLimit last now).allowed = true ↔ minInterval ≤ now - last := by
  simp only [checkRateLimit]
  split
  · next hlt => simp; omega
  · next hge => simp; omega

theorem postToFacebook_dryRun (cfg : Config) (item : QueueItem) (a : Attempt)
    (rl : Nat) (fs : List String) (hdry : cfg.settings.dry_run = true) :
    postToFacebook cfg item a rl fs =
      { result := .ok ("dry-run-" ++ Nat.repr a.startTime), lastPostTime := rl, fs := fs,
        networkCalled := false, route := none } := by
  simp [postToFacebook, hdry]

theorem postToFacebook_rate_reject (cfg : Config) (item : QueueItem) (a : Attempt)
    (rl : Nat) (fs : List String) (hdry : cfg.settings.dry_run = false)
    (hval : (validateConfig cfg).valid = true)
    (hlt : a.startTime - rl < minInterval) :
    postToFacebook cfg item a rl fs =
      { result := .error (checkRateLimit rl a.startTime).message, lastPostTime := rl, fs := fs,
        networkCalled := false, route := none } := by
  have hallow : (checkRateLimit rl a.startTime).allowed = false := by
    have := (checkRateLimit_allowed_iff rl a.startTime)
    rcases h : (checkRateLimit rl a.startTime).allowed
    · rfl
    · exact absurd (this.mp h) (by omega)
  simp [postToFacebook, hdry, hval, hallow]

theorem postToFacebook_rate_pass (cfg : Config) (item : QueueItem) (a : Attempt)
    (rl : Nat) (fs : List String) (hdry : cfg.settings.dry_run = false)
    (hval : (validateConfig cfg).valid = true)
    (hge : minInterval ≤ a.startTime - rl) :
    (postToFacebook cfg item a rl fs).networkCalled = true := by
  have hallow : (checkRateLimit rl a.startTime).allowed = true :=
    (checkRateLimit_allowed_iff rl a.startTime).mpr hge
  rcases htg : truthyOpt item.telegramFileId with _ | fid <;>
    rcases hbot : truthyOpt cfg.settings.telegram.bot_token with _ | tok <;>
    [skip; skip; skip;
     rcases hdl : a.download with msg | u] <;>
    rcases hnet : a.net with msg2 | fbid <;>
    simp [postToFacebook, runPublish, hdry, hval, hallow, htg, hbot, hnet] <;>
    simp [hdl]

theorem postToFacebook_error_keeps (cfg : Config) (item : QueueItem) (a : Attempt)
    (rl : Nat) (fs : List String) (msg : String)
    (h : (postToFacebook cfg item a rl fs).result = .error msg) :
    (postToFacebook cfg item a rl fs).lastPostTime = rl := by
  by_cases hdry : cfg.settings.dry_run = true
  · simp [postToFacebook, hdry] at h
  · replace hdry : cfg.settings.dry_run = false := by simpa [Bool.not_eq_true] using hdry
    by_cases hval : (validateConfig cfg).valid = true
    · by_cases hallow : (checkRateLimit rl a.startTime).allowed = true
      · rcases htg : truthyOpt item.telegramFileId with _ | fid
        · rcases hnet : a.net with m | fbid <;>
            simp [postToFacebook, runPublish, hdry, hval, hallow, htg, hnet] at h ⊢
        · rcases hbot : truthyOpt cfg.settings.telegram.bot_token with _ | tok
          · rcases hnet : a.net with m | fbid <;>
              simp [postToFacebook, runPublish, hdry, hval, hallow, htg, hbot, hnet] at h ⊢
          · rcases hdl : a.download with m | u
            · simp [postToFacebook, hdry, hval, hallow, htg, hbot, hdl]
            · rcases hnet : a.net with m | fbid <;>
                simp [postToFacebook, runPublish, hdry, hval, hallow, htg, hbot, hdl, hnet] at h ⊢
      · replace hallow : (checkRateLimit rl a.startTime).allowed = false := by
          simpa [Bool.not_eq_true] using hallow
        simp [postToFacebook, hdry, hval, hallow]
    · replace hval : (validateConfig cfg).valid = false := by simpa [Bool.not_eq_true] using hval
      simp [postToFacebook, hdry, hval]

theorem postToFacebook_delivered_updates (cfg : Config) (item : QueueItem) (a : Attempt)
    (rl : Nat) (fs : List String) (hdry : cfg.settings.dry_run = false) (fbid : String)
    (h : (postToFacebook cfg item a rl fs).result = .ok fbid) :
    (postToFacebook cfg item a rl fs).lastPostTime = a.finishTime ∧
    (postToFacebook cfg item a rl fs).networkCalled = true := by
  by_cases hval : (validateConfig cfg).valid = true
  · by_cases hallow : (checkRateLimit rl a.startTime).allowed = true
    · rcases htg : truthyOpt item.telegramFileId with _ | fid
      · rcases hnet : a.net with m | fbid2 <;>
          simp [postToFacebook, runPublish, hdry, hval, hallow, htg, hnet] at h ⊢
      · rcases hbot : truthyOpt cfg.settings.telegram.bot_token with _ | tok
        · rcases hnet : a.net with m | fbid2 <;>
            simp [postToFacebook, runPublish, hdry, hval, hallow, htg, hbot, hnet] at h ⊢
        · rcases hdl : a.download with m | u
          · simp [postToFacebook, hdry, hval, hallow, htg, hbot, hdl] at h
          · rcases hnet : a.net with m | fbid2 <;>
              simp [postToFacebook, runPublish, hdry, hval, hallow, htg, hbot, hdl, hnet] at h ⊢
    · replace hallow : (checkRateLimit rl a.startTime).allowed = false := by
        simpa [Bool.not_eq_true] using hallow
      simp [postToFacebook, hdry, hval, hallow] at h
  · replace hval : (validateConfig cfg).valid = false := by simpa [Bool.not_eq_true] using hval
    simp [postToFacebook, hdry, hval] at h

theorem tempLocalPath_ne_empty (a : Attempt) : tempLocalPath a ≠ "" := by
  intro h
  have hlen : (tempLocalPath a).length = 0 := by rw [h]; rfl
  have h11 : TEMP_DIR.length = 11 := by decide
  simp [tempLocalPath, String.length_append, h11] at hlen

theorem strIncludes_tempLocalPath (a : Attempt) :
    strIncludes (tempLocalPath a) TEMP_DIR = true := by
  have hd : (tempLocalPath a).data =
      TEMP_DIR.data ++ ("/" ++ Nat.repr a.startTime ++ "_" ++ a.tgFileName).data := by
    simp [tempLocalPath]
  simp only [strIncludes, hd]
  exact listIncludes_self_append _ _

theorem cleanupTempFile_not_mem (fs : List String) (p : String)
    (hne : p ≠ "") (hmem : fs.contains p = true) (hinc : strIncludes p TEMP_DIR = true) :
    p ∉ cleanupTempFile fs p := by
  have hp : p ∈ fs := by simpa using hmem
  simp [cleanupTempFile, hne, hp, hinc, List.mem_filter]

theorem postToFacebook_scratch_absent (cfg : Config) (item : QueueItem) (a : Attempt)
    (rl : Nat) (fs : List String) (hdry : cfg.settings.dry_run = false)
    (hval : (validateConfig cfg).valid = true)
    (hallow : (checkRateLimit rl a.startTime).allowed = true)
    (fid tok : String)
    (htg : truthyOpt item.telegramFileId = some fid)
    (hbot : truthyOpt cfg.settings.telegram.bot_token = some tok)
    (hdl : a.download = .ok ()) :
    tempLocalPath a ∉ (postToFacebook cfg item a rl fs).fs := by
  have hw : (fsWrite fs (tempLocalPath a)).contains (tempLocalPath a) = true := by
    simp [fsWrite]
    split <;> simp_all
  rcases hnet : a.net with m | fbid <;>
    simp only [postToFacebook, runPublish, hdry, hval, hallow, htg, hbot, hdl, hnet] <;>
    simp only [Bool.not_true, if_false, Bool.false_eq_true, if_neg] <;>
    exact cleanupTempFile_not_mem _ _ (tempLocalPath_ne_empty a) hw (strIncludes_tempLocalPath a)

theorem idsOf_filter_ne (l : List QueueItem) (a : Nat) :
    idsOf (l.filter (fun p => p.id ≠ a)) = (idsOf l).filter (fun i => i ≠ a) := by
  induction l with
  | nil => rfl
  | cons x xs ih => by_cases h : x.id = a <;> simp [idsOf, h, ih] <;> simp [idsOf] at ih <;> exact ih

theorem idsOf_map_mark (l : List QueueItem) (a : Nat) (msg : String) :
    idsOf (l.map (fun p => if p.id = a then { p with status := "failed", error := some msg } else p)) = idsOf l := by
  induction l with
  | nil => rfl
  | cons x xs ih => by_cases h : x.id = a <;> simp [idsOf, h, ih] <;> simp [idsOf] at ih <;> exact ih

theorem mem_idsOf_of_mem {l : List QueueItem} {p : QueueItem} (h : p ∈ l) : p.id ∈ idsOf l :=
  List.mem_map_of_mem _ h

theorem processItem_pending_mem (cfg : Config) (nowIso : String) (a : Attempt)
    (item : QueueItem) (s : ProcState) (r : QueueItem)
    (hr : r ∈ s.pending) (hne : r.id ≠ item.id) :
    r ∈ (processItem cfg nowIso a item s).1.pending := by
  rcases hres : (postToFacebook cfg item a s.lastPostTime s.fs).result with m | fbid <;>
    simp only [processItem, hres]
  · exact List.mem_map.mpr ⟨r, hr, by simp [hne]⟩
  · simp only [List.mem_filter]
    exact ⟨hr, by simp [hne]⟩

theorem processItem_posted_mem (cfg : Config) (nowIso : String) (a : Attempt)
    (item : QueueItem) (s : ProcState) (x : QueueItem) (hx : x ∈ s.posted) :
    x ∈ (processItem cfg nowIso a item s).1.posted := by
  rcases hres : (postToFacebook cfg item a s.lastPostTime s.fs).result with m | fbid <;>
    simp only [processItem, hres]
  · exact hx
  · exact List.mem_append_left _ hx

theorem beq_eq_decide_eq (x a : Nat) : (x == a) = decide (x = a) := by
  rcases h : decide (x = a) <;> simp at h <;> simp [h]

theorem nodup_move_to_end {P Po : List Nat} {a : Nat}
    (h : (P ++ Po).Nodup) (ha : a ∈ P) :
    ((P.filter (fun i => i ≠ a)) ++ (Po ++ [a])).Nodup := by
  have hP : P.Nodup := (List.nodup_append.mp h).1
  have he : P.erase a = P.filter (fun i => i ≠ a) := by
    rw [hP.erase_eq_filter]
    congr 1
    funext x
    simp [bne, beq_eq_decide_eq]
  have p1 : (P ++ Po).Perm ((a :: P.erase a) ++ Po) :=
    (List.perm_cons_erase ha).append_right Po
  have p2 : ((P.erase a ++ Po) ++ [a]).Perm ([a] ++ (P.erase a ++ Po)) :=
    List.perm_append_comm
  have p3 : (P ++ Po).Perm ((P.erase a ++ Po) ++ [a]) := p1.trans p2.symm
  have heq : (P.erase a ++ Po) ++ [a] = (P.filter (fun i => i ≠ a)) ++ (Po ++ [a]) := by
    rw [List.append_assoc, he]
  exact (heq ▸ p3).nodup h

theorem processItem_inv (cfg : Config) (nowIso : String) (a : Attempt)
    (item : QueueItem) (s : ProcState) (t : Nat)
    (hinv : StateInv t s) (hmem : item ∈ s.pending) :
    StateInv t (processItem cfg nowIso a item s).1 := by
  obtain ⟨hst, hnd, hbp, hbo, hh⟩ := hinv
  rcases hres : (postToFacebook cfg item a s.lastPostTime s.fs).result with m | fbid <;>
    simp only [processItem, hres]
  · refine ⟨?_, ?_, ?_, hbo, hh⟩
    · intro p hp
      rcases List.mem_map.mp hp with ⟨p₀, hp₀, rfl⟩
      by_cases h : p₀.id = item.id
      · simp [h]
      · simp [h]
        exact hst p₀ hp₀
    · show ((idsOf (s.pending.map _)) ++ idsOf s.posted).Nodup
      rw [idsOf_map_mark]
      exact hnd
    · intro p hp
      rcases List.mem_map.mp hp with ⟨p₀, hp₀, rfl⟩
      by_cases h : p₀.id = item.id
      · simp only [h, if_pos rfl]
        exact h ▸ hbp p₀ hp₀
      · simp [h]
        exact hbp p₀ hp₀
  · refine ⟨?_, ?_, ?_, ?_, appendHash_length_le _ _ hh⟩
    · intro p hp
      exact hst p (List.mem_filter.mp hp).1
    · show ((idsOf (s.pending.filter _)) ++ idsOf (s.posted ++ [_])).Nodup
      rw [idsOf_filter_ne]
      have hpo : idsOf (s.posted ++
          [{ item with postedAt := some nowIso, facebookPostId := some fbid, status := "posted" }]) =
          idsOf s.posted ++ [item.id] := by
        simp [idsOf]
      rw [hpo]
      exact nodup_move_to_end hnd (mem_idsOf_of_mem hmem)
    · intro p hp
      exact hbp p (List.mem_filter.mp hp).1
    · intro p hp
      rcases List.mem_append.mp hp with h | h
      · exact hbo p h
      · have hpid : p.id = item.id := by
          simp at h
          rw [h]
        rw [hpid]
        exact hbp item hmem

theorem idsOf_nodup_tail {it : QueueItem} {rest : List QueueItem}
    (h : (idsOf (it :: rest)).Nodup) :
    it.id ∉ idsOf rest ∧ (idsOf rest).Nodup := by
  simp only [idsOf, List.map_cons, List.nodup_cons] at h
  exact h

theorem processItems_inv (cfg : Config) (nowIso : String) (env : Nat → Attempt) (t : Nat) :
    ∀ (rem : List QueueItem) (idx : Nat) (s : ProcState),
      StateInv t s → (∀ r ∈ rem, r ∈ s.pending) → (idsOf rem).Nodup →
      StateInv t (processItems cfg nowIso env idx rem s).1 := by
  intro rem
  induction rem with
  | nil => intro idx s h _ _; exact h
  | cons it rest ih =>
    intro idx s hinv hmem hnd
    obtain ⟨hnotin, hndr⟩ := idsOf_nodup_tail hnd
    have hit : it ∈ s.pending := hmem it (List.mem_cons_self _ _)
    have hinv1 := processItem_inv cfg nowIso (env idx) it s t hinv hit
    have hmem1 : ∀ r ∈ rest, r ∈ (processItem cfg nowIso (env idx) it s).1.pending := by
      intro r hr
      have hne : r.id ≠ it.id := by
        intro he
        exact hnotin (he ▸ mem_idsOf_of_mem hr)
      exact processItem_pending_mem cfg nowIso (env idx) it s r
        (hmem r (List.mem_cons_of_mem _ hr)) hne
    exact ih (idx + 1) (processItem cfg nowIso (env idx) it s).1 hinv1 hmem1 hndr

theorem processItems_results_fst (cfg : Config) (nowIso : String) (env : Nat → Attempt) :
    ∀ (rem : List QueueItem) (idx : Nat) (s : ProcState),
      ((processItems cfg nowIso env idx rem s).2).map Prod.fst = rem := by
  intro rem
  induction rem with
  | nil => intro idx s; rfl
  | cons it rest ih =>
    intro idx s
    simp only [processItems, List.map_cons]
    rw [ih]

theorem processItems_pending_persist (cfg : Config) (nowIso : String) (env : Nat → Attempt) :
    ∀ (rem : List QueueItem) (idx : Nat) (s : ProcState) (x : QueueItem),
      x ∈ s.pending → x.id ∉ idsOf rem →
      x ∈ (processItems cfg nowIso env idx rem s).1.pending := by
  intro rem
  induction rem with
  | nil => intro idx s x hx _; exact hx
  | cons it rest ih =>
    intro idx s x hx hnx
    have hne : x.id ≠ it.id := by
      intro he
      exact hnx (by simp [idsOf, he])
    have hx1 := processItem_pending_mem cfg nowIso (env idx) it s x hx hne
    exact ih (idx + 1) _ x hx1 (fun hc => hnx (by simp [idsOf] at hc ⊢; exact Or.inr hc))

theorem processItems_posted_persist (cfg : Config) (nowIso : String) (env : Nat → Attempt) :
    ∀ (rem : List QueueItem) (idx : Nat) (s : ProcState) (x : QueueItem),
      x ∈ s.posted → x ∈ (processItems cfg nowIso env idx rem s).1.posted := by
  intro rem
  induction rem with
  | nil => intro idx s x hx; exact hx
  | cons it rest ih =>
    intro idx s x hx
    exact ih (idx + 1) _ x (processItem_posted_mem cfg nowIso (env idx) it s x hx)

theorem processItem_snd (cfg : Config) (nowIso : String) (a : Attempt)
    (item : QueueItem) (s : ProcState) :
    (processItem cfg nowIso a item s).2 = (postToFacebook cfg item a s.lastPostTime s.fs).result := by
  rcases hres : (postToFacebook cfg item a s.lastPostTime s.fs).result with m | fbid <;>
    simp [processItem, hres]

theorem processItems_failed_mark (cfg : Config) (nowIso : String) (env : Nat → Attempt) :
    ∀ (rem : List QueueItem) (idx : Nat) (s : ProcState),
      (∀ r ∈ rem, r ∈ s.pending) → (idsOf rem).Nodup →
      ∀ (it : QueueItem) (msg : String),
        (it, Except.error msg) ∈ (processItems cfg nowIso env idx rem s).2 →
        { it with status := "failed", error := some msg } ∈
          (processItems cfg nowIso env idx rem s).1.pending := by
  intro rem
  induction rem with
  | nil =>
    intro idx s _ _ it msg hin
    cases hin
  | cons hd rest ih =>
    intro idx s hmem hnd it msg hin
    obtain ⟨hnotin, hndr⟩ := idsOf_nodup_tail hnd
    have hhd : hd ∈ s.pending := hmem hd (List.mem_cons_self _ _)
    have hmem1 : ∀ r ∈ rest, r ∈ (processItem cfg nowIso (env idx) hd s).1.pending := by
      intro r hr
      have hne : r.id ≠ hd.id := fun he => hnotin (he ▸ mem_idsOf_of_mem hr)
      exact processItem_pending_mem cfg nowIso (env idx) hd s r
        (hmem r (List.mem_cons_of_mem _ hr)) hne
    simp only [processItems, List.mem_cons] at hin
    rcases hin with hin | hin
    · obtain ⟨h1, h2⟩ := Prod.mk.injEq .. ▸ hin
      subst h1
      have hres : (postToFacebook cfg it (env idx) s.lastPostTime s.fs).result = .error msg := by
        rw [← processItem_snd cfg nowIso (env idx) it s]
        exact h2.symm
      have hx1 : { it with status := "failed", error := some msg } ∈
          (processItem cfg nowIso (env idx) it s).1.pending := by
        simp only [processItem, hres]
        refine List.mem_map.mpr ⟨it, hhd, ?_⟩
        simp
      exact processItems_pending_persist cfg nowIso env rest (idx + 1) _ _ hx1 hnotin
    · exact ih (idx + 1) _ hmem1 hndr it msg hin

theorem processItems_success_mem (cfg : Config) (nowIso : String) (env : Nat → Attempt) :
    ∀ (rem : List QueueItem) (idx : Nat) (s : ProcState) (it : QueueItem) (fbid : String),
      (it, Except.ok fbid) ∈ (processItems cfg nowIso env idx rem s).2 →
      { it with postedAt := some nowIso, facebookPostId := some fbid, status := "posted" } ∈
        (processItems cfg nowIso env idx rem s).1.posted := by
  intro rem
  induction rem with
  | nil =>
    intro idx s it fbid hin
    cases hin
  | cons hd rest ih =>
    intro idx s it fbid hin
    simp only [processItems, List.mem_cons] at hin
    rcases hin with hin | hin
    · obtain ⟨h1, h2⟩ := Prod.mk.injEq .. ▸ hin
      subst h1
      have hres : (postToFacebook cfg it (env idx) s.lastPostTime s.fs).result = .ok fbid := by
        rw [← processItem_snd cfg nowIso (env idx) it s]
        exact h2.symm
      have hx1 : { it with postedAt := some nowIso, facebookPostId := some fbid, status := "posted" } ∈
          (processItem cfg nowIso (env idx) it s).1.posted := by
        simp only [processItem, hres]
        exact List.mem_append_right _ (List.mem_singleton.mpr rfl)
      exact processItems_posted_persist cfg nowIso env rest (idx + 1) _ _ hx1
    · exact ih (idx + 1) _ it fbid hin

theorem processItems_dryRun_ok (cfg : Config) (hdry : cfg.settings.dry_run = true)
    (nowIso : String) (env : Nat → Attempt) :
    ∀ (rem : List QueueItem) (idx : Nat) (s : ProcState) (it : QueueItem)
      (r : Except String String),
      (it, r) ∈ (processItems cfg nowIso env idx rem s).2 →
      ∃ fbid, r = .ok fbid ∧ ∃ suffix, fbid = "dry-run-" ++ suffix := by
  intro rem
  induction rem with
  | nil =>
    intro idx s it r hin
    cases hin
  | cons hd rest ih =>
    intro idx s it r hin
    simp only [processItems, List.mem_cons] at hin
    rcases hin with hin | hin
    · obtain ⟨h1, h2⟩ := Prod.mk.injEq .. ▸ hin
      refine ⟨"dry-run-" ++ Nat.repr (env idx).startTime, ?_, Nat.repr (env idx).startTime, rfl⟩
      rw [h2, processItem_snd, postToFacebook_dryRun cfg hd (env idx) s.lastPostTime s.fs hdry]
    · exact ih (idx + 1) _ it r hin

theorem QueueInv_mono {t t' : Nat} {q : Queue} (hle : t ≤ t') (h : QueueInv t q) :
    QueueInv t' q := by
  obtain ⟨hst, hnd, hbp, hbo, hh⟩ := h
  exact ⟨hst, hnd, fun p hp => lt_of_lt_of_le (hbp p hp) hle,
    fun p hp => lt_of_lt_of_le (hbo p hp) hle, hh⟩

theorem QueueInv_schedulePosts (t : Nat) (cfg : Config) (tz : TzNow) (q : Queue)
    (h : QueueInv t q) : QueueInv t (schedulePosts cfg tz q).1 := by
  obtain ⟨hst, hnd, hbp, hbo, hh⟩ := h
  obtain ⟨hfp, hfh, hfl⟩ := schedulePosts_frame cfg tz q
  refine ⟨?_, ?_, ?_, ?_, ?_⟩
  · intro p hp
    obtain ⟨p₀, hp₀, _, hstq⟩ := schedulePosts_pending_mem cfg tz q p hp
    rw [hstq]
    exact hst p₀ hp₀
  · rw [schedulePosts_idsOf, hfp]
    exact hnd
  · intro p hp
    obtain ⟨p₀, hp₀, hid, _⟩ := schedulePosts_pending_mem cfg tz q p hp
    rw [hid]
    exact hbp p₀ hp₀
  · rw [hfp]
    exact hbo
  · rw [hfh]
    exact hh

theorem nodup_snoc_append {P Po : List Nat} {a : Nat}
    (h : (P ++ Po).Nodup) (haP : a ∉ P) (haPo : a ∉ Po) :
    ((P ++ [a]) ++ Po).Nodup := by
  have hperm : ((P ++ [a]) ++ Po).Perm (a :: (P ++ Po)) := by
    have p1 : (P ++ [a]).Perm ([a] ++ P) := List.perm_append_comm
    have p2 : ((P ++ [a]) ++ Po).Perm (([a] ++ P) ++ Po) := p1.append_right Po
    exact p2
  refine hperm.symm.nodup ?_
  rw [List.nodup_cons]
  exact ⟨by simp [haP, haPo], h⟩

theorem QueueInv_addToQueue (digest : String → String) (cfg : Config) (tz : TzNow)
    (now : Nat) (nowIso : String) (content : Content) {t : Nat} {q : Queue}
    (h : QueueInv t q) (hle : t ≤ now) :
    QueueInv (now + 1) (addToQueue digest cfg tz now nowIso content q).2.1 := by
  have hmono : QueueInv (now + 1) q := QueueInv_mono (by omega) h
  by_cases hval : (validateInput content).valid = true
  · by_cases hdup : isDuplicateContent q (generateContentHash digest content.text content.mediaType) = true
    · simp only [addToQueue, hval, hdup, Bool.not_true, Bool.false_eq_true, if_false, if_true]
      exact hmono
    · obtain ⟨hst, hnd, hbp, hbo, hh⟩ := h
      have hdup' : isDuplicateContent q (generateContentHash digest content.text content.mediaType) = false := by
        simpa [Bool.not_eq_true] using hdup
      simp only [addToQueue, hval, hdup', Bool.not_true, Bool.false_eq_true, if_false]
      refine QueueInv_schedulePosts (now + 1) cfg tz _ ⟨?_, ?_, ?_, ?_, hh⟩
      · intro p hp
        rcases List.mem_append.mp hp with h1 | h1
        · exact hst p h1
        · have : p = newQueueItem content (generateContentHash digest content.text content.mediaType) now nowIso := by
            simpa using h1
          rw [this]
          simp [newQueueItem]
      · have hids : idsOf (q.pending ++ [newQueueItem content
            (generateContentHash digest content.text content.mediaType) now nowIso]) =
            idsOf q.pending ++ [now] := by
          simp [idsOf, newQueueItem]
        show (idsOf (q.pending ++ [_]) ++ idsOf q.posted).Nodup
        rw [hids]
        refine nodup_snoc_append hnd ?_ ?_
        · intro hc
          rcases List.mem_map.mp hc with ⟨p, hp, hpid⟩
          have := hbp p hp
          omega
        · intro hc
          rcases List.mem_map.mp hc with ⟨p, hp, hpid⟩
          have := hbo p hp
          omega
      · intro p hp
        rcases List.mem_append.mp hp with h1 | h1
        · exact lt_of_lt_of_le (hbp p h1) (by omega)
        · have : p = newQueueItem content (generateContentHash digest content.text content.mediaType) now nowIso := by
            simpa using h1
          rw [this]
          show now < now + 1
          omega
      · intro p hp
        exact lt_of_lt_of_le (hbo p hp) (by omega)
  · have hval' : (validateInput content).valid = false := by simpa [Bool.not_eq_true] using hval
    simp only [addToQueue, hval', Bool.not_false, if_true]
    exact hmono

theorem QueueInv_process (cfg : Config) (nowIso : String) (env : Nat → Attempt)
    (rl : Nat) (fs : List String) {t : Nat} {q : Queue} (h : QueueInv t q) :
    QueueInv t (processScheduledPosts cfg nowIso env rl fs q).store := by
  obtain ⟨hst, hnd, hbp, hbo, hh⟩ := h
  have hs0 : StateInv t
      { pending := q.pending, posted := q.posted, postedHashes := q.postedHashes,
        lastPostTime := rl, fs := fs } :=
    ⟨hst, hnd, hbp, hbo, hh⟩
  have hdue_mem : ∀ r ∈ q.pending.filter (isDue nowIso), r ∈ q.pending := by
    intro r hr
    exact List.mem_of_mem_filter hr
  have hdue_nd : (idsOf (q.pending.filter (isDue nowIso))).Nodup := by
    have hsub : (idsOf (q.pending.filter (isDue nowIso))).Sublist (idsOf q.pending) :=
      (List.filter_sublist _).map _
    exact ((List.nodup_append.mp hnd).1).sublist hsub
  have hfin := processItems_inv cfg nowIso env t (q.pending.filter (isDue nowIso)) 0 _
    hs0 hdue_mem hdue_nd
  obtain ⟨h1, h2, h3, h4, h5⟩ := hfin
  exact ⟨h1, h2, h3, h4, h5⟩

theorem reachable_inv {t : Nat} {q : Queue} (h : Reachable t q) : QueueInv t q := by
  induction h with
  | empty =>
    refine ⟨?_, ?_, ?_, ?_, ?_⟩ <;> simp [emptyQueue, idsOf]
  | add digest cfg tz now nowIso content hr hle ih =>
    exact QueueInv_addToQueue digest cfg tz now nowIso content ih hle
  | schedule cfg tz hr ih =>
    exact QueueInv_schedulePosts _ cfg tz _ ih
  | process cfg nowIso env rl fs hr ih =>
    exact QueueInv_process cfg nowIso env rl fs ih

set_option maxRecDepth 4000 in
theorem appendHash_foldl_window :
    ∀ (hs acc : List String), (acc ++ hs).Nodup → "" ∉ hs → acc.length ≤ 1000 →
      List.foldl appendHash acc hs = (acc ++ hs).drop ((acc.length + hs.length) - 1000) := by
  intro hs
  induction hs with
  | nil =>
    intro acc hnd hne hlen
    simp [Nat.sub_eq_zero_of_le hlen]
  | cons h rest ih =>
    intro acc hnd hne hlen
    have hnd' := hnd
    rw [List.nodup_append] at hnd'
    obtain ⟨hndacc, hndcons, hdisj⟩ := hnd'
    have hh_ne : h ≠ "" := fun hc => hne (by simp [hc])
    have hh_notin : h ∉ acc := fun hc => hdisj hc (List.mem_cons_self _ _)
    have hne2 : "" ∉ rest := fun hc => hne (List.mem_cons_of_mem _ hc)
    have hcond : (h ≠ "" ∧ ¬ acc.contains h = true) := ⟨hh_ne, by simp [hh_notin]⟩
    rw [List.foldl_cons]
    by_cases hcase : (acc ++ [h]).length > 1000
    · have hacc1000 : acc.length = 1000 := by
        rw [List.length_append, List.length_singleton] at hcase
        omega
      have hstep : appendHash acc h = (acc ++ [h]).drop 1 := by
        simp only [appendHash]
        rw [if_pos hcond, if_pos hcase]
      rw [hstep]
      obtain ⟨a0, acctl, rfl⟩ := List.exists_cons_of_ne_nil
        (show acc ≠ [] by intro hc; rw [hc] at hacc1000; simp at hacc1000)
      have hacctl : acctl.length = 999 := by
        rw [List.length_cons] at hacc1000
        omega
      have hdrop : ((a0 :: acctl) ++ [h]).drop 1 = acctl ++ [h] := by
        rfl
      rw [hdrop]
      have hshape1 : (acctl ++ [h]) ++ rest = acctl ++ h :: rest := by
        rw [List.append_assoc]
        rfl
      have hndtl : (acctl ++ h :: rest).Nodup := by
        have : ((a0 :: acctl) ++ h :: rest).Nodup := hnd
        rw [List.cons_append, List.nodup_cons] at this
        exact this.2
      have hnd2 : ((acctl ++ [h]) ++ rest).Nodup := by
        rw [hshape1]
        exact hndtl
      have hlen2 : (acctl ++ [h]).length ≤ 1000 := by
        rw [List.length_append, List.length_singleton, hacctl]
      rw [ih (acctl ++ [h]) hnd2 hne2 hlen2]
      have hidx1 : (acctl ++ [h]).length + rest.length - 1000 = rest.length := by
        rw [List.length_append, List.length_singleton, hacctl]
        omega
      have hidx2 : (a0 :: acctl).length + (h :: rest).length - 1000 = rest.length + 1 := by
        simp only [List.length_cons]
        omega
      rw [hidx1, hidx2, hshape1]
      have hshape2 : (a0 :: acctl) ++ h :: rest = a0 :: (acctl ++ h :: rest) := rfl
      rw [hshape2, List.drop_succ_cons]
    · have hstep : appendHash acc h = acc ++ [h] := by
        simp only [appendHash]
        rw [if_pos hcond, if_neg hcase]
      rw [hstep]
      have hshape1 : (acc ++ [h]) ++ rest = acc ++ h :: rest := by
        rw [List.append_assoc]
        rfl
      have hnd2 : ((acc ++ [h]) ++ rest).Nodup := by
        rw [hshape1]
        exact hnd
      have hlen2 : (acc ++ [h]).length ≤ 1000 := by
        rw [List.length_append, List.length_singleton]
        rw [List.length_append, List.length_singleton] at hcase
        omega
      rw [ih (acc ++ [h]) hnd2 hne2 hlen2, hshape1]
      have hidx : (acc ++ [h]).length + rest.length - 1000 = acc.length + (h :: rest).length - 1000 := by
        rw [List.length_append, List.length_singleton, List.length_cons]
        omega
      rw [hidx]

theorem findSlot_none (cur : Nat) :
    ∀ times, findSlot cur times = none → ∀ t ∈ times, slotMinutes t ≤ cur := by
  intro times
  induction times with
  | nil => intro _ t ht; cases ht
  | cons hd rest ih =>
    intro hnone t ht
    by_cases hgt : slotMinutes hd > cur
    · rw [findSlot, if_pos hgt] at hnone
      cases hnone
    · rw [findSlot, if_neg hgt] at hnone
      rcases List.mem_cons.mp ht with h1 | h1
      · rw [h1]
        omega
      · exact ih hnone t h1

theorem findSlot_some (cur : Nat) :
    ∀ times t, findSlot cur times = some t →
      ∃ pre post, times = pre ++ t :: post ∧ (∀ p ∈ pre, slotMinutes p ≤ cur) ∧
        slotMinutes t > cur := by
  intro times
  induction times with
  | nil => intro t h; cases h
  | cons hd rest ih =>
    intro t h
    by_cases hgt : slotMinutes hd > cur
    · rw [findSlot, if_pos hgt] at h
      obtain rfl : hd = t := by cases h; rfl
      exact ⟨[], rest, rfl, fun p hp => absurd hp (List.not_mem_nil p), hgt⟩
    · rw [findSlot, if_neg hgt] at h
      obtain ⟨pre, post, heq, hpre, hslot⟩ := ih t h
      refine ⟨hd :: pre, post, by rw [heq]; rfl, ?_, hslot⟩
      intro p hp
      rcases List.mem_cons.mp hp with h1 | h1
      · rw [h1]
        omega
      · exact hpre p h1

theorem getNextScheduleTime_isSome (times : List String) (cur : Nat) (h : times ≠ []) :
    ∃ st, getNextScheduleTime times cur = some st := by
  obtain ⟨hd, tl, rfl⟩ := List.exists_cons_of_ne_nil h
  rcases hf : findSlot cur (hd :: tl) with _ | t
  · exact ⟨_, by rw [getNextScheduleTime, hf]⟩
  · exact ⟨_, by rw [getNextScheduleTime, hf]⟩

theorem getNextScheduleTimeIso_isSome (cfg : Config) (tz : TzNow)
    (h : cfg.settings.schedule.post_times ≠ []) :
    ∃ slot, getNextScheduleTimeIso cfg tz = some slot := by
  obtain ⟨st, hst⟩ := getNextScheduleTime_isSome cfg.settings.schedule.post_times tz.currentTime h
  exact ⟨formatScheduled tz st, by rw [getNextScheduleTimeIso, hst]; rfl⟩

theorem assignSlots_getElem (cfg : Config) (tz : TzNow) :
    ∀ (l : List QueueItem) (n i : Nat),
      (assignSlots cfg tz n l)[i]? = (l[i]?).map (fun it =>
        if it.scheduledFor = none ∧
            ((l.take i).filter (fun x => x.scheduledFor = none)).length < n
        then { it with scheduledFor := getNextScheduleTimeIso cfg tz } else it) := by
  intro l
  induction l with
  | nil =>
    intro n i
    cases n <;> simp [assignSlots]
  | cons hd tl ih =>
    intro n i
    cases n with
    | zero =>
      simp only [assignSlots, Nat.not_lt_zero, and_false, if_false]
      cases h : (hd :: tl)[i]? <;> simp
    | succ m =>
      cases i with
      | zero =>
        by_cases hhd : hd.scheduledFor = none
        · rw [assignSlots, if_pos hhd]
          simp [hhd]
        · rw [assignSlots, if_neg hhd]
          simp [hhd]
      | succ i =>
        by_cases hhd : hd.scheduledFor = none
        · rw [assignSlots, if_pos hhd]
          rw [List.getElem?_cons_succ, ih m i]
          have hcount : (((hd :: tl).take (i + 1)).filter
              (fun x => x.scheduledFor = none)).length =
              ((tl.take i).filter (fun x => x.scheduledFor = none)).length + 1 := by
            rw [List.take_succ_cons, List.filter_cons_of_pos (by simp [hhd])]
            rfl
          cases htl : tl[i]? with
          | none => simp [htl]
          | some x =>
            simp only [Option.map_some', List.getElem?_cons_succ, htl]
            refine congrArg some (if_congr ?_ rfl rfl)
            rw [hcount]
            constructor
            · rintro ⟨h1, h2⟩
              exact ⟨h1, by omega⟩
            · rintro ⟨h1, h2⟩
              exact ⟨h1, by omega⟩
        · rw [assignSlots, if_neg hhd]
          rw [List.getElem?_cons_succ, ih (m + 1) i]
          have hcount : (((hd :: tl).take (i + 1)).filter
              (fun x => x.scheduledFor = none)).length =
              ((tl.take i).filter (fun x => x.scheduledFor = none)).length := by
            rw [List.take_succ_cons, List.filter_cons_of_neg (by simp [hhd])]
          cases htl : tl[i]? with
          | none => simp [htl]
          | some x =>
            simp only [Option.map_some', List.getElem?_cons_succ, htl]
            rw [hcount]

/-- C3: for a configuration with a non-empty ordered list of time-of-day
slots, getNextScheduleTime returns the first configured slot strictly
later than the current time of day for today (day offset 0); if every
configured slot has passed, it returns the first slot for tomorrow (day
offset 1).  With post_times 09:00 and 18:00: now 10:00 yields 18:00
today, now 19:00 yields 09:00 tomorrow, now 08:00 yields 09:00 today. -/
theorem getNextScheduleTime_first_later_slot (times : List String) (cur : Nat)
    (h : times ≠ []) :
    (∃ st, getNextScheduleTime times cur = some st ∧
      ((∃ t pre post, times = pre ++ t :: post ∧ (∀ p ∈ pre, slotMinutes p ≤ cur) ∧
          slotMinutes t > cur ∧
          st = { dayOffset := 0, hour := (timeParts t).getD 0 0,
                 minute := (timeParts t).getD 1 0 }) ∨
       ((∀ t ∈ times, slotMinutes t ≤ cur) ∧
          st = { dayOffset := 1, hour := (timeParts (times.headD "")).getD 0 0,
                 minute := (timeParts (times.headD "")).getD 1 0 }))) ∧
    getNextScheduleTime ["09:00", "18:00"] (10 * 60) =
      some { dayOffset := 0, hour := 18, minute := 0 } ∧
    getNextScheduleTime ["09:00", "18:00"] (19 * 60) =
      some { dayOffset := 1, hour := 9, minute := 0 } ∧
    getNextScheduleTime ["09:00", "18:00"] (8 * 60) =
      some { dayOffset := 0, hour := 9, minute := 0 } := by
  refine ⟨?_, by decide, by decide, by decide⟩
  rcases hf : findSlot cur times with _ | t
  · obtain ⟨hd, tl, rfl⟩ := List.exists_cons_of_ne_nil h
    exact ⟨_, by simp [getNextScheduleTime, hf], Or.inr ⟨findSlot_none cur _ hf, rfl⟩⟩
  · obtain ⟨pre, post, heq, hpre, hgt⟩ := findSlot_some cur times t hf
    exact ⟨_, by simp [getNextScheduleTime, hf], Or.inl ⟨t, pre, post, heq, hpre, hgt, rfl⟩⟩

/-- Witness for C3 at the concrete slot list of the claim. -/
theorem getNextScheduleTime_first_later_slot_witness :
    getNextScheduleTime ["09:00", "18:00"] (10 * 60) =
      some { dayOffset := 0, hour := 18, minute := 0 } :=
  (getNextScheduleTime_first_later_slot ["09:00", "18:00"] (10 * 60) (by decide)).2.1

/-- C4: after a successful delivery the rate-limiter clock holds the
finish time of that delivery; a second attempt starting less than 60
seconds later is rejected with the rate-limit error before any network
request and leaves the clock unchanged, while an attempt starting at
least 60 seconds later passes the gate to the network; every attempt
that ends in an error (config error, rate limited, download or publish
failure) leaves the rate-limiter clock unchanged, so only a successful
delivery updates it. -/
theorem rate_limit_gate_boundary (cfg : Config) (it1 it2 : QueueItem) (a1 a2 : Attempt)
    (rl : Nat) (fs1 fs2 : List String) (id1 : String)
    (hdry : cfg.settings.dry_run = false)
    (hcfg : (validateConfig cfg).valid = true)
    (h1 : (postToFacebook cfg it1 a1 rl fs1).result = .ok id1) :
    (postToFacebook cfg it1 a1 rl fs1).lastPostTime = a1.finishTime ∧
    (a2.startTime - a1.finishTime < minInterval →
      postToFacebook cfg it2 a2 a1.finishTime fs2 =
        { result := .error (checkRateLimit a1.finishTime a2.startTime).message,
          lastPostTime := a1.finishTime, fs := fs2, networkCalled := false, route := none }) ∧
    (minInterval ≤ a2.startTime - a1.finishTime →
      (postToFacebook cfg it2 a2 a1.finishTime fs2).networkCalled = true) ∧
    (∀ (it : QueueItem) (a : Attempt) (rl0 : Nat) (fs0 : List String) (msg : String),
      (postToFacebook cfg it a rl0 fs0).result = .error msg →
      (postToFacebook cfg it a rl0 fs0).lastPostTime = rl0) :=
  ⟨(postToFacebook_delivered_updates cfg it1 a1 rl fs1 hdry id1 h1).1,
    fun hlt => postToFacebook_rate_reject cfg it2 a2 a1.finishTime fs2 hdry hcfg hlt,
    fun hge => postToFacebook_rate_pass cfg it2 a2 a1.finishTime fs2 hdry hcfg hge,
    fun it a rl0 fs0 msg hmsg => postToFacebook_error_keeps cfg it a rl0 fs0 msg hmsg⟩

/-- Witness for C4: a successful attempt at 100000ms followed by an
attempt at 120000ms, 19.5 seconds after the success, is rejected. -/
theorem rate_limit_gate_boundary_witness :
    postToFacebook cfgOk item6 aSecond aFirst.finishTime [] =
      { result := .error (checkRateLimit aFirst.finishTime aSecond.startTime).message,
        lastPostTime := aFirst.finishTime, fs := [], networkCalled := false, route := none } :=
  (rate_limit_gate_boundary cfgOk item6 item6 aFirst aSecond 0 [] [] "fb_1"
    rfl (by decide) rfl).2.1 (by decide)

/-- C7: with dry run enabled a delivery attempt issues no network
request, leaves the disk untouched, and returns the synthetic id
dry-run- followed by the clock reading, an id always carrying the
dry-run- marker that real platform ids are never given; and in a
processor pass every due item is marked posted with such a synthetic
id. -/
theorem dry_run_isolation (cfg : Config) (hdry : cfg.settings.dry_run = true) :
    (∀ (item : QueueItem) (a : Attempt) (rl : Nat) (fs : List String),
       postToFacebook cfg item a rl fs =
         { result := .ok ("dry-run-" ++ Nat.repr a.startTime), lastPostTime := rl, fs := fs,
           networkCalled := false, route := none }) ∧
    (∀ (nowIso : String) (env : Nat → Attempt) (rl : Nat) (fs : List String) (q : Queue)
       (it : QueueItem) (r : Except String String),
       (it, r) ∈ (processScheduledPosts cfg nowIso env rl fs q).results →
       ∃ suffix, r = .ok ("dry-run-" ++ suffix) ∧
         { it with postedAt := some nowIso, facebookPostId := some ("dry-run-" ++ suffix), status := "posted" } ∈
           (processScheduledPosts cfg nowIso env rl fs q).store.posted) := by
  refine ⟨fun item a rl fs => postToFacebook_dryRun cfg item a rl fs hdry, ?_⟩
  intro nowIso env rl fs q it r hin
  simp only [processScheduledPosts] at hin ⊢
  obtain ⟨fbid, hok, suffix, hsuf⟩ :=
    processItems_dryRun_ok cfg hdry nowIso env _ 0 _ it r hin
  subst hsuf
  refine ⟨suffix, hok, ?_⟩
  exact processItems_success_mem cfg nowIso env _ 0 _ it _ (hok ▸ hin)

/-- Witness for C7: a concrete dry-run attempt returns the synthetic id
without touching network or disk. -/
theorem dry_run_isolation_witness :
    postToFacebook cfgDry item6 aFirst 0 [] =
      { result := .ok ("dry-run-" ++ Nat.repr aFirst.startTime), lastPostTime := 0, fs := [],
        networkCalled := false, route := none } :=
  (dry_run_isolation cfgDry rfl).1 item6 aFirst 0 []

/-- Counterexample for C8: the cleanup guard is a substring test
(filePath.includes(TEMP_DIR)), not an under-directory test, so a path
outside the scratch directory that embeds the scratch directory path as
an inner substring is deleted even though it does not lie under the
scratch directory. -/
theorem cleanup_substring_guard_counterexample :
    cleanupTempFile ["/mirror/skill/temp/f.jpg"] "/mirror/skill/temp/f.jpg" = [] ∧
    liesUnderScratchDir "/mirror/skill/temp/f.jpg" = false := by
  constructor
  · decide
  · decide

/-- C8 amended: a delivery attempt that reaches the media-fetch stage
(gates passed, a Telegram file reference and bot token present, download
succeeded) leaves the downloaded scratch file absent from the disk when
the attempt concludes, whatever the publish outcome; and the cleanup
operation deletes a path only if the path contains the scratch directory
path as a substring (not only if it lies under the scratch directory):
a path not containing the scratch directory path is never deleted, and
whenever cleanup removes an entry, that entry is the given path and that
path passes the substring guard. -/
theorem cleanup_guarantee_amended (cfg : Config) (item : QueueItem) (a : Attempt)
    (rl : Nat) (fs : List String) (fid tok : String)
    (hdry : cfg.settings.dry_run = false)
    (hval : (validateConfig cfg).valid = true)
    (hallow : (checkRateLimit rl a.startTime).allowed = true)
    (htg : truthyOpt item.telegramFileId = some fid)
    (hbot : truthyOpt cfg.settings.telegram.bot_token = some tok)
    (hdl : a.download = .ok ()) :
    tempLocalPath a ∉ (postToFacebook cfg item a rl fs).fs ∧
    (∀ (fs2 : List String) (p : String), strIncludes p TEMP_DIR = false →
      cleanupTempFile fs2 p = fs2) ∧
    (∀ (fs2 : List String) (p x : String), x ∈ fs2 → x ∉ cleanupTempFile fs2 p →
      x = p ∧ strIncludes p TEMP_DIR = true) := by
  refine ⟨postToFacebook_scratch_absent cfg item a rl fs hdry hval hallow fid tok htg hbot hdl,
    ?_, ?_⟩
  · intro fs2 p hni
    simp [cleanupTempFile, hni]
  · intro fs2 p x hx hnx
    by_cases hcond : p ≠ "" ∧ fs2.contains p = true ∧ strIncludes p TEMP_DIR = true
    · rw [cleanupTempFile, if_pos hcond] at hnx
      have : ¬ (x ∈ fs2 ∧ x ≠ p) := by
        intro hc
        exact hnx (List.mem_filter.mpr ⟨hc.1, by simp [hc.2]⟩)
      have hxp : x = p := by
        by_cases hxp : x = p
        · exact hxp
        · exact absurd ⟨hx, hxp⟩ this
      exact ⟨hxp, hcond.2.2⟩
    · rw [cleanupTempFile, if_neg hcond] at hnx
      exact absurd hx hnx

/-- Witness for C8 amended: a failing publish attempt that downloaded a
Telegram file leaves the scratch path deleted. -/
theorem cleanup_guarantee_amended_witness :
    tempLocalPath aTg ∉ (postToFacebook cfgTg itemTg aTg 0 []).fs :=
  (cleanup_guarantee_amended cfgTg itemTg aTg 0 [] "file9" "bt123"
    rfl (by decide) (by decide) rfl rfl rfl).1

/-- C1: for input passing validation, addToQueue answers the duplicate
rejection exactly when the content hash is already a member of
postedHashes; a hash recorded by an earlier completed post is rejected,
while a hash only carried by an item still pending (postedHashes silent)
is admitted, the new item being appended at the end of pending. -/
theorem addToQueue_duplicate_iff_postedHash (digest : String → String) (cfg : Config)
    (tz : TzNow) (now : Nat) (nowIso : String) (content : Content) (store : Queue)
    (hval : (validateInput content).valid = true) :
    ((addToQueue digest cfg tz now nowIso content store).1 = .duplicate ↔
      generateContentHash digest content.text content.mediaType ∈ store.postedHashes) ∧
    (generateContentHash digest content.text content.mediaType ∈ store.postedHashes →
      (addToQueue digest cfg tz now nowIso content store).2.1 = store) ∧
    (generateContentHash digest content.text content.mediaType ∉ store.postedHashes →
      (addToQueue digest cfg tz now nowIso content store).1 =
        .success (newQueueItem content
          (generateContentHash digest content.text content.mediaType) now nowIso) ∧
      idsOf (addToQueue digest cfg tz now nowIso content store).2.1.pending =
        idsOf store.pending ++ [now]) := by
  by_cases hdup : generateContentHash digest content.text content.mediaType ∈ store.postedHashes
  · have hb : isDuplicateContent store
        (generateContentHash digest content.text content.mediaType) = true := by
      simp [isDuplicateContent, hdup]
    simp only [addToQueue, hval, Bool.not_true, Bool.false_eq_true, if_false, hb, if_true]
    exact ⟨by simp [hdup], fun _ => by simp, fun hc => absurd hdup hc⟩
  · have hb : isDuplicateContent store
        (generateContentHash digest content.text content.mediaType) = false := by
      simp [isDuplicateContent, hdup]
    simp only [addToQueue, hval, Bool.not_true, Bool.false_eq_true, if_false, hb]
    refine ⟨by simp [hdup], fun hc => absurd hc hdup, fun _ => ⟨by simp, ?_⟩⟩
    rw [schedulePosts_idsOf]
    simp [idsOf, newQueueItem]

/-- Witness for C1: admitting a fresh item into the empty store appends
it to pending. -/
theorem addToQueue_duplicate_iff_postedHash_witness :
    (addToQueue dig0 cfgOk tz0 5 nowIso6 content0 emptyQueue).1 =
      .success (newQueueItem content0
        (generateContentHash dig0 content0.text content0.mediaType) 5 nowIso6) ∧
    idsOf (addToQueue dig0 cfgOk tz0 5 nowIso6 content0 emptyQueue).2.1.pending =
      idsOf emptyQueue.pending ++ [5] :=
  (addToQueue_duplicate_iff_postedHash dig0 cfgOk tz0 5 nowIso6 content0 emptyQueue
    (by decide)).2.2 (by simp [emptyQueue])

/-- Store states written by schedulePosts all equal its final store. -/
theorem schedulePosts_writes_sub (cfg : Config) (tz : TzNow) (q : Queue) :
    ∀ w ∈ (schedulePosts cfg tz q).2, w = (schedulePosts cfg tz q).1 := by
  by_cases hny : (q.pending.filter (fun it => it.scheduledFor = none)).isEmpty = true <;>
    simp [schedulePosts, hny]

theorem addToQueue_invalid_eq (digest : String → String) (cfg : Config) (tz : TzNow)
    (now : Nat) (nowIso : String) (content : Content) (store : Queue)
    (hval : (validateInput content).valid = false) :
    addToQueue digest cfg tz now nowIso content store =
      (.failure (validateInput content).errors, store, []) := by
  simp only [addToQueue, hval, Bool.not_false, if_true]

theorem addToQueue_dup_eq (digest : String → String) (cfg : Config) (tz : TzNow)
    (now : Nat) (nowIso : String) (content : Content) (store : Queue) (hsh : String)
    (hg : generateContentHash digest content.text content.mediaType = hsh)
    (hval : (validateInput content).valid = true)
    (hb : isDuplicateContent store hsh = true) :
    addToQueue digest cfg tz now nowIso content store = (.duplicate, store, []) := by
  subst hg
  simp only [addToQueue, hval, Bool.not_true, Bool.false_eq_true, if_false, hb, if_true]

theorem addToQueue_success_eq (digest : String → String) (cfg : Config)
    (tz : TzNow) (now : Nat) (nowIso : String) (content : Content) (store : Queue)
    (hsh : String)
    (hg : generateContentHash digest content.text content.mediaType = hsh)
    (hval : (validateInput content).valid = true)
    (hb : isDuplicateContent store hsh = false) :
    addToQueue digest cfg tz now nowIso content store =
      (AddResult.success (newQueueItem content hsh now nowIso),
        (schedulePosts cfg tz
          { store with pending := store.pending ++ [newQueueItem content hsh now nowIso] }).1,
        { store with pending := store.pending ++ [newQueueItem content hsh now nowIso] } ::
          (schedulePosts cfg tz
            { store with pending := store.pending ++ [newQueueItem content hsh now nowIso] }).2) := by
  subst hg
  simp only [addToQueue, hval, Bool.not_true, Bool.false_eq_true, if_false, hb]

theorem writes_carry (cfg : Config) (tz : TzNow) (q1 : Queue) (item : QueueItem)
    (hmem : item ∈ q1.pending) (nid : Nat) (ntext nhash : String)
    (hid : item.id = nid) (ht : item.text = ntext) (hh : item.contentHash = nhash) :
    ∀ w ∈ q1 :: (schedulePosts cfg tz q1).2,
      ∃ p ∈ w.pending, p.id = nid ∧ p.text = ntext ∧ p.contentHash = nhash := by
  intro w hw
  rcases List.mem_cons.mp hw with h1 | h1
  · subst h1
    exact ⟨item, hmem, hid, ht, hh⟩
  · have hw1 := schedulePosts_writes_sub cfg tz q1 w h1
    subst hw1
    obtain ⟨p, hp, hid2, ht2, hh2, _⟩ := schedulePosts_pending_mem_of cfg tz q1 item hmem
    exact ⟨p, hp, hid2.trans hid, ht2.trans ht, hh2.trans hh⟩

/-- C10: when addToQueue returns a validation failure or the duplicate
rejection it performs no store write and leaves the persisted store
unchanged; and every store state it does write already carries the new
item (its id, text and content hash) inside pending, so the store is
written only after the item has been appended. -/
theorem addToQueue_write_atomicity (digest : String → String) (cfg : Config)
    (tz : TzNow) (now : Nat) (nowIso : String) (content : Content) (store : Queue) :
    ((∀ item0 : QueueItem,
        (addToQueue digest cfg tz now nowIso content store).1 ≠ .success item0) →
      (addToQueue digest cfg tz now nowIso content store).2.2 = [] ∧
      (addToQueue digest cfg tz now nowIso content store).2.1 = store) ∧
    (∀ w ∈ (addToQueue digest cfg tz now nowIso content store).2.2,
      ∃ p ∈ w.pending, p.id = now ∧ p.text = content.text ∧
        p.contentHash = generateContentHash digest content.text content.mediaType) := by
  generalize hg : generateContentHash digest content.text content.mediaType = hsh
  by_cases hval : (validateInput content).valid = true
  · by_cases hdup : isDuplicateContent store hsh = true
    · have heq := addToQueue_dup_eq digest cfg tz now nowIso content store hsh hg hval hdup
      have h0 := congrArg (fun x => x.1) heq
      have h1 := congrArg (fun x => x.2.1) heq
      have h2 := congrArg (fun x => x.2.2) heq
      simp only at h0 h1 h2
      constructor
      · intro _
        exact ⟨h2, h1⟩
      · intro w hw
        rw [h2] at hw
        cases hw
    · have hb : isDuplicateContent store hsh = false := by
        simpa [Bool.not_eq_true] using hdup
      have heq := addToQueue_success_eq digest cfg tz now nowIso content store hsh hg hval hb
      have h0 := congrArg (fun x => x.1) heq
      have h2 := congrArg (fun x => x.2.2) heq
      simp only at h0 h2
      constructor
      · intro hno
        exact absurd h0 (hno _)
      · intro w hw
        rw [h2] at hw
        have hm : (newQueueItem content hsh now nowIso) ∈
            ({ store with pending := store.pending ++ [newQueueItem content hsh now nowIso] } :
              Queue).pending :=
          List.mem_append_right _ (List.mem_singleton.mpr rfl)
        exact writes_carry cfg tz _ _ hm now content.text hsh rfl rfl rfl w hw
  · have hval' : (validateInput content).valid = false := by
      simpa [Bool.not_eq_true] using hval
    have heq := addToQueue_invalid_eq digest cfg tz now nowIso content store hval'
    have h0 := congrArg (fun x => x.1) heq
    have h1 := congrArg (fun x => x.2.1) heq
    have h2 := congrArg (fun x => x.2.2) heq
    simp only at h0 h1 h2
    constructor
    · intro _
      exact ⟨h2, h1⟩
    · intro w hw
      rw [h2] at hw
      cases hw

/-- Witness for C10: a rejected ingestion (missing text) writes nothing
and leaves the store unchanged. -/
theorem addToQueue_write_atomicity_witness :
    (addToQueue dig0 cfgOk tz0 7 nowIso6 badContent emptyQueue).2.2 = [] ∧
    (addToQueue dig0 cfgOk tz0 7 nowIso6 badContent emptyQueue).2.1 = emptyQueue :=
  (addToQueue_write_atomicity dig0 cfgOk tz0 7 nowIso6 badContent emptyQueue).1
    (by intro item0 hc
        have hr : (addToQueue dig0 cfgOk tz0 7 nowIso6 badContent emptyQueue).1 =
            .failure ["Text content is required"] := rfl
        rw [hr] at hc
        exact AddResult.noConfusion hc)

/-- C2: in every reachable queue state no pending item carries the
posted status, the id sets of pending and posted are disjoint, and ids
are unique across the union of the two collections; reachability closes
the empty store under ingestion, scheduling and processing, so every
operation preserves this. -/
theorem reachable_pending_posted_partition {t : Nat} {q : Queue} (h : Reachable t q) :
    (∀ p ∈ q.pending, p.status ≠ "posted") ∧
    (∀ i ∈ idsOf q.pending, i ∉ idsOf q.posted) ∧
    (idsOf (q.pending ++ q.posted)).Nodup := by
  obtain ⟨h1, h2, _, _, _⟩ := reachable_inv h
  refine ⟨h1, fun i hi hc => (List.disjoint_of_nodup_append h2) hi hc, ?_⟩
  show ((q.pending ++ q.posted).map (fun it => it.id)).Nodup
  rw [List.map_append]
  exact h2

/-- Witness for C2: the invariant at the state reached by one concrete
ingestion from the empty store. -/
theorem reachable_pending_posted_partition_witness :
    (∀ p ∈ (addToQueue dig0 cfgOk tz0 5 nowIso6 content0 emptyQueue).2.1.pending,
        p.status ≠ "posted") ∧
    (∀ i ∈ idsOf (addToQueue dig0 cfgOk tz0 5 nowIso6 content0 emptyQueue).2.1.pending,
        i ∉ idsOf (addToQueue dig0 cfgOk tz0 5 nowIso6 content0 emptyQueue).2.1.posted) ∧
    (idsOf ((addToQueue dig0 cfgOk tz0 5 nowIso6 content0 emptyQueue).2.1.pending ++
        (addToQueue dig0 cfgOk tz0 5 nowIso6 content0 emptyQueue).2.1.posted)).Nodup :=
  reachable_pending_posted_partition
    (Reachable.add dig0 cfgOk tz0 5 nowIso6 content0 Reachable.empty (Nat.zero_le 5))

/-- C5: every reachable state keeps postedHashes within its capacity of
1000; folding the success-path hash bookkeeping over distinct truthy
hashes from the empty window keeps the most recent 1000, evicting the
oldest first; in particular after 1001 successful posts with distinct
hashes the window is exactly the last 1000 of them, of length 1000. -/
theorem postedHashes_bounded_eviction :
    (∀ (t : Nat) (q : Queue), Reachable t q → q.postedHashes.length ≤ 1000) ∧
    (∀ hs : List String, hs.Nodup → "" ∉ hs →
      List.foldl appendHash [] hs = hs.drop (hs.length - 1000)) ∧
    (∀ hs : List String, hs.Nodup → "" ∉ hs → hs.length = 1001 →
      List.foldl appendHash [] hs = hs.drop 1 ∧
        (List.foldl appendHash [] hs).length = 1000) := by
  have hgen : ∀ hs : List String, hs.Nodup → "" ∉ hs →
      List.foldl appendHash [] hs = hs.drop (hs.length - 1000) := by
    intro hs hnd hne
    have hw := appendHash_foldl_window hs [] (by simpa using hnd) hne (by simp)
    simpa using hw
  refine ⟨fun t q h => (reachable_inv h).2.2.2.2, hgen, ?_⟩
  intro hs hnd hne hlen
  have h1 := hgen hs hnd hne
  have hidx : hs.length - 1000 = 1 := by omega
  rw [hidx] at h1
  refine ⟨h1, ?_⟩
  rw [h1, List.length_drop, hlen]

/-- Witness for C5: the capacity bound at the empty store and the fold
characterization at a small concrete distinct hash list. -/
theorem postedHashes_bounded_eviction_witness :
    emptyQueue.postedHashes.length ≤ 1000 ∧
    List.foldl appendHash [] ["a", "b"] = ["a", "b"].drop (["a", "b"].length - 1000) :=
  ⟨postedHashes_bounded_eviction.1 0 emptyQueue Reachable.empty,
   postedHashes_bounded_eviction.2.1 ["a", "b"] (by decide) (by decide)⟩

/-- C6: a processor pass over a queue with distinct pending ids always
completes, giving every due item exactly one attempt in order; an item
whose attempt fails is left in pending marked failed with the error
message recorded, so the next pass retries it; and the pass persists the
queue exactly once, at the end, writing the final reconciled state. -/
theorem processor_failure_handling (cfg : Config) (nowIso : String) (env : Nat → Attempt)
    (rl : Nat) (fs : List String) (q : Queue) (h : (idsOf q.pending).Nodup) :
    (processScheduledPosts cfg nowIso env rl fs q).writes =
      [(processScheduledPosts cfg nowIso env rl fs q).store] ∧
    ((processScheduledPosts cfg nowIso env rl fs q).results).map Prod.fst =
      q.pending.filter (isDue nowIso) ∧
    (∀ (it : QueueItem) (msg : String),
      (it, Except.error msg) ∈ (processScheduledPosts cfg nowIso env rl fs q).results →
      { it with status := "failed", error := some msg } ∈
        (processScheduledPosts cfg nowIso env rl fs q).store.pending) := by
  refine ⟨rfl, ?_, ?_⟩
  · exact processItems_results_fst cfg nowIso env _ 0 _
  · intro it msg hin
    have hdm : ∀ r ∈ q.pending.filter (isDue nowIso), r ∈ q.pending :=
      fun r hr => List.mem_of_mem_filter hr
    have hdn : (idsOf (q.pending.filter (isDue nowIso))).Nodup :=
      h.sublist ((List.filter_sublist _).map _)
    exact processItems_failed_mark cfg nowIso env _ 0 _ hdm hdn it msg hin

/-- Witness for C6: a due item whose attempt hits the config error is
left in pending marked failed with that message. -/
theorem processor_failure_handling_witness :
    { item6 with status := "failed", error := some "Config error: Facebook Page ID is required" } ∈
      (processScheduledPosts cfgBad nowIso6 env6 0 [] q6).store.pending :=
  (processor_failure_handling cfgBad nowIso6 env6 0 [] q6 (by decide)).2.2 item6
    "Config error: Facebook Page ID is required" (by
      have hres : (processScheduledPosts cfgBad nowIso6 env6 0 [] q6).results =
          [(item6, Except.error "Config error: Facebook Page ID is required")] := rfl
      rw [hres]
      exact List.mem_singleton.mpr rfl)

/-- Helper for C9: lookup-based identity when nothing is unscheduled. -/
theorem schedulePosts_pending_of_isEmpty (cfg : Config) (tz : TzNow) (q : Queue)
    (hny : (q.pending.filter (fun it => it.scheduledFor = none)).isEmpty = true) :
    (schedulePosts cfg tz q).1.pending = q.pending := by
  simp [schedulePosts, hny]

/-- C9: one schedulePosts invocation computes one slot value from the
configuration and the clock context; exactly the unscheduled pending
items preceded by fewer than posts_per_day unscheduled items (that is,
the first posts_per_day unscheduled items in arrival order) receive that
one same slot — no staggering across successive slots — while every
other pending item, the posted list, the hash window and lastPostTime
are unchanged. -/
theorem schedulePosts_first_n_same_slot (cfg : Config) (tz : TzNow) (q : Queue)
    (h : cfg.settings.schedule.post_times ≠ []) :
    ∃ slot, getNextScheduleTimeIso cfg tz = some slot ∧
      (schedulePosts cfg tz q).1.posted = q.posted ∧
      (schedulePosts cfg tz q).1.postedHashes = q.postedHashes ∧
      (schedulePosts cfg tz q).1.lastPostTime = q.lastPostTime ∧
      ∀ i : Nat, (schedulePosts cfg tz q).1.pending[i]? =
        (q.pending[i]?).map (fun it =>
          if it.scheduledFor = none ∧
              ((q.pending.take i).filter (fun x => x.scheduledFor = none)).length <
                postsPerDay cfg
          then { it with scheduledFor := some slot } else it) := by
  obtain ⟨slot, hslot⟩ := getNextScheduleTimeIso_isSome cfg tz h
  obtain ⟨hfp, hfh, hfl⟩ := schedulePosts_frame cfg tz q
  refine ⟨slot, hslot, hfp, hfh, hfl, ?_⟩
  intro i
  by_cases hny : (q.pending.filter (fun it => it.scheduledFor = none)).isEmpty = true
  · rw [schedulePosts_pending_of_isEmpty cfg tz q hny]
    have hnone : ∀ it ∈ q.pending, ¬ it.scheduledFor = none := by
      intro itx hitx hc
      have hmem : itx ∈ q.pending.filter (fun it => it.scheduledFor = none) :=
        List.mem_filter.mpr ⟨hitx, by simp [hc]⟩
      rw [List.isEmpty_iff] at hny
      rw [hny] at hmem
      cases hmem
    cases hq : q.pending[i]? with
    | none => simp
    | some x =>
      have hx : x ∈ q.pending := by
        have := List.getElem?_eq_some_iff.mp hq
        obtain ⟨hlt, hget⟩ := this
        exact hget ▸ List.getElem_mem _
      simp [hnone x hx]
  · have hpend : (schedulePosts cfg tz q).1.pending =
        assignSlots cfg tz (postsPerDay cfg) q.pending := by
      simp [schedulePosts, hny]
    rw [hpend, assignSlots_getElem, hslot]

/-- Witness for C9: the concrete one-item unscheduled queue keeps its
posted list unchanged under scheduling. -/
theorem schedulePosts_first_n_same_slot_witness :
    (schedulePosts cfgOk tz0 q9).1.posted = q9.posted := by
  obtain ⟨slot, hslot, hfp, hfh, hfl, hpend⟩ :=
    schedulePosts_first_n_same_slot cfgOk tz0 q9 (by decide)
  exact hfp
